import Mathlib

/-!
# Verification of the tcmalloc span free-list subsystem (`tcmalloc/span.cc`)

Shallow embedding of the span free-list encoding and maintenance algorithm:
index/pointer conversion, `BuildFreelist`, batched pop, sampling bookkeeping,
fragmentation estimate and aging-timestamp merge.

Machine integers are modelled as `Nat` with explicit `% 2 ^ w` at the places
where the C++ code performs a narrowing cast or arithmetic on a fixed-width
type whose wrap-around could matter (`ObjIdx` is `uint16_t`).  Pointers are
modelled as natural-number addresses; the span memory is a function from byte
addresses to the 16-bit values stored at them (all stores performed by this
subsystem are 2-byte `ObjIdx` stores at 2-byte-aligned addresses).
-/

namespace Tcmalloc

/-! ## Constants

`kAlignment`, `kPageShift`, `kCacheSize`, `SizeMap::kMultiPageSize`,
`SizeMap::kMultiPageAlignment` and `Span::kListEnd` are declared in headers
that are not part of the sources under verification.  They are modelled from
the spec and from the comments in `span.cc`: indices are 16-bit, the divisor is
8 for objects of size at most 512 and 64 for larger ones, the inline cache
holds 4 entries, pages are 256KiB ("note that we have 256K pages"), and the
sentinel `kListEnd` bounds the index of every object start strictly from
above. -/

def kAlignmentShift : Nat := 3

def kAlignment : Nat := 2 ^ kAlignmentShift

def kPageShift : Nat := 18

def kPageSize : Nat := 2 ^ kPageShift

def kCacheSize : Nat := 4

namespace SizeMap

def kMultiPageSize : Nat := 512

def kMultiPageAlignmentShift : Nat := 6

def kMultiPageAlignment : Nat := 2 ^ kMultiPageAlignmentShift

end SizeMap

/-- Modelled from the spec: the reserved sentinel index ("end of chain / no
object"); every real object-start index is strictly below it. -/
def kListEnd : Nat := kPageSize / kAlignment

/-- Start address of a page: `PageId::start_uintptr()`. -/
def pageStart (firstPage : Nat) : Nat := firstPage <<< kPageShift

/-- The shift used to convert between indices and offsets, selected by the
addressing mode (`size` at or below `SizeMap::kMultiPageSize` vs. above). -/
def alignShift (size : Nat) : Nat :=
  if size ≤ SizeMap.kMultiPageSize then kAlignmentShift
  else SizeMap.kMultiPageAlignmentShift

/-- The alignment (divisor) corresponding to `alignShift`. -/
def alignSize (size : Nat) : Nat := 2 ^ alignShift size

/-- `Span::PtrToIdx(void* ptr, size_t size)` (span.cc:133-160).
For small objects the offset is the low `kPageShift` bits of the pointer
divided by `kAlignment`; for large objects it is the distance from the span
base divided by `kMultiPageAlignment`.  The final `% 2 ^ 16` is the
`static_cast<ObjIdx>(off)`. -/
def PtrToIdx (base p size : Nat) : Nat :=
  let off :=
    if size ≤ SizeMap.kMultiPageSize then (p &&& (kPageSize - 1)) / kAlignment
    else (p - base) / SizeMap.kMultiPageAlignment
  off % 2 ^ 16

/-- `Span::IdxToPtr(ObjIdx idx, size_t size)` (span.cc:162-172). -/
def IdxToPtr (base idx size : Nat) : Nat :=
  base + (idx <<< (if size ≤ SizeMap.kMultiPageSize then kAlignmentShift
                   else SizeMap.kMultiPageAlignmentShift))

/-- The index step between consecutive objects computed at the top of
`Span::BuildFreelist` (span.cc:187-191): `size / kAlignment`, replaced by
`size / kMultiPageAlignment` for sizes above `kMultiPageSize`; both are stored
into the 16-bit `ObjIdx idxStep`. -/
def idxStepOf (size : Nat) : Nat :=
  if size > SizeMap.kMultiPageSize then size / SizeMap.kMultiPageAlignment % 2 ^ 16
  else size / kAlignment % 2 ^ 16

/-- Wrapping 16-bit subtraction (for `idxEnd -= idxStep` on `ObjIdx`);
both arguments are assumed below `2 ^ 16`. -/
def sub16 (a b : Nat) : Nat := (a + (2 ^ 16 - b)) % 2 ^ 16

/-! ## The span data model

Fields of `Span` used by the operations under verification.  `cache_` is the
4-entry inline array (modelled as a function, read only below `cache_size_`),
`mem` is the span's backing memory at `ObjIdx` (2-byte) granularity, keyed by
byte address. -/

structure Span where
  first_page_ : Nat
  num_pages_ : Nat
  allocated_ : Nat
  freelist_ : Nat
  cache_ : Nat → Nat
  cache_size_ : Nat
  embed_count_ : Nat
  freelist_added_time_ : Nat
  mem : Nat → Nat

/-- `Span::bytes_in_span()`: `num_pages_` in bytes. -/
def Span.bytes_in_span (s : Span) : Nat := s.num_pages_ * kPageSize

/-! ## `BuildFreelist` (span.cc:182-236) -/

/-- The cache-filling loop of `BuildFreelist` (span.cc:204-209):
`for (; idx < idxEnd && cache_size < kCacheSize; idx += idxStep)`.
`fuel` bounds the iteration count; `kCacheSize` iterations always suffice
because `cache_size` grows by one per iteration.  Returns the final
`(idx, cache_size, cache_)`. -/
def fillCache (idxStep idxEnd : Nat) : Nat → Nat → Nat → (Nat → Nat) →
    Nat × Nat × (Nat → Nat)
  | 0, idx, cs, cache => (idx, cs, cache)
  | fuel + 1, idx, cs, cache =>
    if idx < idxEnd ∧ cs < kCacheSize then
      fillCache idxStep idxEnd fuel ((idx + idxStep) % 2 ^ 16) (cs + 1)
        (Function.update cache cs idx)
    else (idx, cs, cache)

/-- State of the chain-building loop of `BuildFreelist`:
the freelist head index, the cached address of the first object on the
freelist (`ObjIdx* host`, `none` for `nullptr`), the embed count of the head
object, and the span memory. -/
structure ChainSt where
  freelist : Nat
  host : Option Nat
  embed_count : Nat
  mem : Nat → Nat

/-- The `else` branch of the chain loop (span.cc:227-233): push a new object
onto the freelist.  Returns the advanced `idx` and the new state. -/
def buildHostStep (base size idxStep idx : Nat) (st : ChainSt) : Nat × ChainSt :=
  let h := IdxToPtr base idx size
  (((idx + idxStep) % 2 ^ 16),
   { freelist := idx, host := some h, embed_count := 0,
     mem := Function.update st.mem h st.freelist })

/-- The chain-building loop of `BuildFreelist` (span.cc:218-234):
`while (idx < idxEnd)`, embedding high-end indices into the current host when
it has capacity, otherwise pushing a new host taken from the low end.  `fuel`
bounds the iteration count; `count` iterations always suffice because every
iteration consumes one object index. -/
def buildLoop (base size idxStep max_embed : Nat) :
    Nat → Nat → Nat → ChainSt → ChainSt
  | 0, _, _, st => st
  | fuel + 1, idx, idxEnd, st =>
    if idx < idxEnd then
      match st.host with
      | some hAddr =>
        if st.embed_count ≠ max_embed then
          buildLoop base size idxStep max_embed fuel idx (sub16 idxEnd idxStep)
            { st with embed_count := st.embed_count + 1,
                      mem := Function.update st.mem
                        (hAddr + 2 * (st.embed_count + 1)) (sub16 idxEnd idxStep) }
        else
          let p := buildHostStep base size idxStep idx st
          buildLoop base size idxStep max_embed fuel p.1 idxEnd p.2
      | none =>
        let p := buildHostStep base size idxStep idx st
        buildLoop base size idxStep max_embed fuel p.1 idxEnd p.2
    else st

/-- `Span::BuildFreelist(size_t size, size_t count)` (span.cc:182-236).
`max_embed = size / sizeof(ObjIdx) - 1`; the `% 2 ^ 16` on `idxEnd` is the
narrowing store into `ObjIdx idxEnd`. -/
def Span.buildFreelist (s : Span) (size count : Nat) : Span :=
  let base := pageStart s.first_page_
  let idxStep := idxStepOf size
  let idxEnd := count * idxStep % 2 ^ 16
  let fc := fillCache idxStep idxEnd kCacheSize 0 0 s.cache_
  let max_embed := size / 2 - 1
  let st := buildLoop base size idxStep max_embed count fc.1 idxEnd
    { freelist := kListEnd, host := none, embed_count := 0, mem := s.mem }
  { s with allocated_ := 0, freelist_ := st.freelist,
           cache_ := fc.2.2, cache_size_ := fc.2.1,
           embed_count_ := st.embed_count, mem := st.mem }

/-! ## Reading the freelist structure back from a span

These definitions express what the spec calls the indices "reachable via
inline cache + chain (including embedded entries)".  A chain node at index
`n` stores its forward link in its first `ObjIdx` slot and embedded entries
in the following slots; every node after the head is full (holds
`max_embed` embedded entries), per the freelist-organization comment in
span.cc:114-119. -/

/-- The `e` embedded entries of the chain node at address `hAddr`
(slots `1, …, e`). -/
def nodeEmbedded (mem : Nat → Nat) (hAddr e : Nat) : List Nat :=
  (List.range e).map fun i => mem (hAddr + 2 * (i + 1))

/-- The chain starting at head index `head` consists exactly of the nodes
listed in `ns`, linked through each node's slot 0, terminated by `kListEnd`. -/
def ChainRep (base size : Nat) (mem : Nat → Nat) : Nat → List Nat → Prop
  | head, [] => head = kListEnd
  | head, n :: rest =>
    head = n ∧ ChainRep base size mem (mem (IdxToPtr base n size)) rest

/-- Indices held by a list of full chain nodes: each node itself plus its
`max_embed` embedded entries. -/
def chainElemsFull (base size max_embed : Nat) (mem : Nat → Nat) :
    List Nat → List Nat
  | [] => []
  | n :: rest =>
    n :: (nodeEmbedded mem (IdxToPtr base n size) max_embed ++
          chainElemsFull base size max_embed mem rest)

/-- Indices held by a chain whose head node carries `e` embedded entries and
whose remaining nodes are full. -/
def chainElems (base size max_embed : Nat) (mem : Nat → Nat) (e : Nat) :
    List Nat → List Nat
  | [] => []
  | n :: rest =>
    n :: (nodeEmbedded mem (IdxToPtr base n size) e ++
          chainElemsFull base size max_embed mem rest)

/-- Fuel-bounded walk of the chain from `head`, collecting every node index
and every embedded entry; the head node carries `e` embedded entries, each
subsequent node is full. -/
def chainRead (base size max_embed : Nat) (mem : Nat → Nat) :
    Nat → Nat → Nat → List Nat
  | 0, _, _ => []
  | fuel + 1, head, e =>
    if head = kListEnd then []
    else
      head :: (nodeEmbedded mem (IdxToPtr base head size) e ++
        chainRead base size max_embed mem fuel
          (mem (IdxToPtr base head size)) max_embed)

/-- Fuel-bounded walk of the chain from `head`, collecting the node indices
only. -/
def chainNodes (base size : Nat) (mem : Nat → Nat) : Nat → Nat → List Nat
  | 0, _ => []
  | fuel + 1, head =>
    if head = kListEnd then []
    else head :: chainNodes base size mem fuel (mem (IdxToPtr base head size))

/-- The arithmetic progression `[a, a + step, …, b - step]`
(empty when `b ≤ a`). -/
def rangeStep (a b step : Nat) : List Nat :=
  (List.range ((b - a) / step)).map fun k => a + k * step

/-- The inline-cache contents of a span, lowest slot first. -/
def cacheList (s : Span) : List Nat := (List.range s.cache_size_).map s.cache_

/-- All free object indices recorded in a span of at most `count` objects:
the inline cache plus the chain walk (chain nodes, their embedded entries,
non-head nodes read as full). -/
def freeIndices (s : Span) (size count : Nat) : List Nat :=
  cacheList s ++
    chainRead (pageStart s.first_page_) size (size / 2 - 1) s.mem count
      s.freelist_ s.embed_count_

/-! ## Batched consumption (`FreelistPopBatch`)

`Span::FreelistPopBatch` (span.cc:174-180) dispatches on the addressing mode
and calls `FreelistPopBatchSized`, which is declared in `tcmalloc/span.h` and
is not among the sources under verification. -/

/-- Modelled from the spec: `Span::FreelistPopBatchSized` (declared in
`tcmalloc/span.h`, not part of the sources) pops one object.  Order of
consumption per spec section 4.3: drain the inline cache first (top of the
array first), then follow the chain, reading embedded indices out of the head
chain node (decrementing the embed count) until that node is exhausted, then
hand out the head node itself and advance the head to its stored forward
link; a freshly reached node is full (`size / sizeof(ObjIdx) - 1` embedded
entries), per the freelist-organization comment in span.cc:114-119.  Stops
(returns `none`) when the cache is empty and the chain head is the sentinel. -/
def popOne (size : Nat) (s : Span) : Option (Nat × Span) :=
  if 0 < s.cache_size_ then
    some (IdxToPtr (pageStart s.first_page_) (s.cache_ (s.cache_size_ - 1))
            size,
          { s with cache_size_ := s.cache_size_ - 1,
                   allocated_ := s.allocated_ + 1 })
  else if s.freelist_ = kListEnd then none
  else if 0 < s.embed_count_ then
    some (IdxToPtr (pageStart s.first_page_)
            (s.mem (IdxToPtr (pageStart s.first_page_) s.freelist_ size
              + 2 * s.embed_count_)) size,
          { s with embed_count_ := s.embed_count_ - 1,
                   allocated_ := s.allocated_ + 1 })
  else
    some (IdxToPtr (pageStart s.first_page_) s.freelist_ size,
          { s with
            freelist_ := s.mem (IdxToPtr (pageStart s.first_page_)
                           s.freelist_ size),
            embed_count_ := size / 2 - 1,
            allocated_ := s.allocated_ + 1 })

/-- Modelled from the spec: `Span::FreelistPopBatch(batch, N, size)` returns
between 0 and `N` object pointers (here: the list of popped pointers together
with the span after the call); it stops early when the freelist is
exhausted. -/
def FreelistPopBatch (size : Nat) : Nat → Span → List Nat × Span
  | 0, s => ([], s)
  | n + 1, s =>
    match popOne size s with
    | none => ([], s)
    | some (p, s') =>
      let r := FreelistPopBatch size n s'
      (p :: r.1, r.2)

/-- Repeatedly call `FreelistPopBatch` with batch size `N` until a call
returns 0 objects (spec section 8, "Pop exhaustion"); `fuel` bounds the
number of calls.  Returns all popped pointers in order. -/
def drainFreelist (size n : Nat) : Nat → Span → List Nat × Span
  | 0, s => ([], s)
  | fuel + 1, s =>
    let b := FreelistPopBatch size n s
    if b.1 = [] then ([], b.2)
    else
      let r := drainFreelist size n fuel b.2
      (b.1 ++ r.1, r.2)

/-- The sequence of object indices produced by draining a chain whose head
carries `e` embedded entries: per node, the embedded entries from the top
slot down, then the node itself. -/
def popOrder (base size max_embed : Nat) (mem : Nat → Nat) :
    List Nat → Nat → List Nat
  | [], _ => []
  | n :: rest, e =>
    (nodeEmbedded mem (IdxToPtr base n size) e).reverse ++
      n :: popOrder base size max_embed mem rest max_embed

/-- The full sequence of object indices produced by draining a span:
the inline cache from the top down, then the chain. -/
def popSeq (size max_embed : Nat) (s : Span) (ns : List Nat) : List Nat :=
  (cacheList s).reverse ++
    popOrder (pageStart s.first_page_) size max_embed s.mem ns s.embed_count_

/-! ## Sampling bookkeeping (`Sample` / `Unsample`, span.cc:34-61)

The sampled-span intrusive list and the lossy `StatsCounter` are external
collaborators; they are modelled as a list of span identities and an exact
integer counter (the claims are about the race-free, single-threaded
behaviour).  `AllocatedBytes` is an external estimation function, passed as a
parameter; the cast of its result to `StatsCounter::Value` is modelled by
taking it in `ℤ`. -/

structure GlobalSampleState where
  sampled_objects : List Nat
  sampled_objects_size : ℤ

/-- The sampling-related fields of `Span`: `sampled_` and the exclusively
owned `sampled_stack_`, plus the span's identity used for membership in the
shared sampled-span list. -/
structure SampleSpan (σ : Type) where
  id : Nat
  sampled_ : Bool
  sampled_stack_ : Option σ

/-- `Span::Sample(StackTrace* stack)` (span.cc:34-44): store the stack,
mark the span sampled, prepend it to `Static::sampled_objects_`, and add
`AllocatedBytes(*stack, true)` to `Static::sampled_objects_size_`. -/
def Sample {σ : Type} (allocatedBytes : σ → ℤ) (stack : σ)
    (s : SampleSpan σ) (g : GlobalSampleState) :
    SampleSpan σ × GlobalSampleState :=
  ({ s with sampled_ := true, sampled_stack_ := some stack },
   { sampled_objects := s.id :: g.sampled_objects,
     sampled_objects_size := g.sampled_objects_size + allocatedBytes stack })

/-- `Span::Unsample()` (span.cc:46-61): if not sampled, return null with no
side effects; otherwise clear the sampled state, detach and return the stack,
remove the span from the shared list, and subtract the same byte estimate
from the shared counter. -/
def Unsample {σ : Type} (allocatedBytes : σ → ℤ)
    (s : SampleSpan σ) (g : GlobalSampleState) :
    Option σ × SampleSpan σ × GlobalSampleState :=
  if s.sampled_ = false then (none, s, g)
  else
    let stack := s.sampled_stack_
    (stack,
     { s with sampled_ := false, sampled_stack_ := none },
     { sampled_objects := g.sampled_objects.erase s.id,
       sampled_objects_size :=
         g.sampled_objects_size - (stack.map allocatedBytes).getD 0 })

/-! ## Fragmentation estimate (`Fragmentation`, span.cc:63-87)

`Static::pagemap().sizeclass` and `Static::sizemap().class_to_size` are
external lookups, passed as parameters.  The C++ `double` result is modelled
exactly in `ℚ`. -/

def Span.fragmentation (sizeclass : Nat → Nat) (class_to_size : Nat → Nat)
    (s : Span) : ℚ :=
  let cl := sizeclass s.first_page_
  if cl = 0 then 0
  else
    let obj_size := class_to_size cl
    let span_objects := s.bytes_in_span / obj_size
    let live := s.allocated_
    if live = 0 then 0
    else ((span_objects : ℚ) - (live : ℚ)) / (live : ℚ)

/-! ## Aging-timestamp merge (`AverageFreelistAddedTime`, span.cc:89-95)

The computation is done in floating point to avoid overflowing `uint64_t`
and the result is cast back; `double` is modelled exactly in `ℚ`, and the
`static_cast<uint64_t>` of the non-negative average is `Nat.floor`. -/

def Span.averageFreelistAddedTime (s other : Span) : Span :=
  { s with freelist_added_time_ :=
      ⌊((s.freelist_added_time_ : ℚ) * (s.num_pages_ : ℚ) +
        (other.freelist_added_time_ : ℚ) * (other.num_pages_ : ℚ)) /
        ((s.num_pages_ : ℚ) + (other.num_pages_ : ℚ))⌋₊ }

/-- A concrete span used for worked examples and witnesses. -/
def testSpan : Span :=
  { first_page_ := 0, num_pages_ := 1, allocated_ := 0, freelist_ := 0,
    cache_ := fun _ => 0, cache_size_ := 0, embed_count_ := 0,
    freelist_added_time_ := 0, mem := fun _ => 0 }

/-! ## Basic numeric facts -/

theorem kListEnd_lt_two_pow_16 : kListEnd < 2 ^ 16 := by
  norm_num [kListEnd, kPageSize, kPageShift, kAlignment, kAlignmentShift]

theorem kListEnd_pos : 0 < kListEnd := by
  norm_num [kListEnd, kPageSize, kPageShift, kAlignment, kAlignmentShift]

/-- A valid object index is strictly below the sentinel, given the
`BuildFreelist` assertion `count * idxStep < kListEnd`. -/
theorem idx_lt_kListEnd {size count k : Nat} (hk : k < count)
    (hE : count * idxStepOf size < kListEnd) :
    k * idxStepOf size < kListEnd := by
  rcases Nat.eq_zero_or_pos (idxStepOf size) with h0 | h0
  · simpa [h0] using kListEnd_pos
  · exact lt_trans (by exact (Nat.mul_lt_mul_right h0).mpr hk) hE

/-! ## C1: index/pointer round trip -/

/-- C1: for every valid object index `i = k * idxStep` of a span (with the
span-build bound `count * idxStep < kListEnd`) and for both addressing modes,
converting the index to a pointer and back is the identity:
`PtrToIdx(IdxToPtr(i, size), size) == i`. -/
theorem ptrToIdx_idxToPtr_roundTrip (fp size count k : Nat)
    (hk : k < count) (hE : count * idxStepOf size < kListEnd) :
    PtrToIdx (pageStart fp) (IdxToPtr (pageStart fp) (k * idxStepOf size) size)
      size = k * idxStepOf size := by
  set i := k * idxStepOf size with hi_def
  have hi : i < kListEnd := idx_lt_kListEnd hk hE
  have hi16 : i < 2 ^ 16 := lt_trans hi kListEnd_lt_two_pow_16
  have hi15 : i < 2 ^ 15 := by
    have : kListEnd = 2 ^ 15 := by
      norm_num [kListEnd, kPageSize, kPageShift, kAlignment, kAlignmentShift]
    omega
  unfold PtrToIdx IdxToPtr pageStart
  by_cases hs : size ≤ SizeMap.kMultiPageSize
  · simp only [hs, if_true]
    rw [Nat.shiftLeft_eq, Nat.shiftLeft_eq]
    have hpage : kPageSize = 2 ^ 18 := by norm_num [kPageSize, kPageShift]
    have hmask : (fp * 2 ^ kPageShift + i * 2 ^ kAlignmentShift) &&& (kPageSize - 1)
        = i * 2 ^ kAlignmentShift := by
      rw [hpage, Nat.and_pow_two_sub_one_eq_mod]
      have hsh : kPageShift = 18 := rfl
      rw [hsh, Nat.mul_comm fp (2 ^ 18), Nat.mul_add_mod]
      have : i * 2 ^ kAlignmentShift < 2 ^ 18 := by
        have : i * 2 ^ kAlignmentShift < 2 ^ 15 * 2 ^ 3 := by
          have h3 : kAlignmentShift = 3 := rfl
          rw [h3]
          exact Nat.mul_lt_mul_of_lt_of_le hi15 le_rfl (by norm_num)
        omega
      exact Nat.mod_eq_of_lt this
    rw [hmask]
    have ha : kAlignment = 2 ^ kAlignmentShift := rfl
    rw [ha, Nat.mul_div_cancel i (by norm_num [kAlignmentShift])]
    exact Nat.mod_eq_of_lt hi16
  · simp only [hs, if_false]
    rw [Nat.shiftLeft_eq, Nat.shiftLeft_eq, Nat.add_sub_cancel_left]
    have ha : SizeMap.kMultiPageAlignment = 2 ^ SizeMap.kMultiPageAlignmentShift := rfl
    rw [ha, Nat.mul_div_cancel i (by norm_num [SizeMap.kMultiPageAlignmentShift])]
    exact Nat.mod_eq_of_lt hi16

/-- Witness for C1: a concrete round trip in each addressing mode. -/
theorem ptrToIdx_idxToPtr_roundTrip_witness :
    PtrToIdx (pageStart 5) (IdxToPtr (pageStart 5) (3 * idxStepOf 16) 16) 16
        = 3 * idxStepOf 16 ∧
    PtrToIdx (pageStart 5) (IdxToPtr (pageStart 5) (3 * idxStepOf 1024) 1024)
        1024 = 3 * idxStepOf 1024 :=
  ⟨ptrToIdx_idxToPtr_roundTrip 5 16 6 3 (by norm_num) (by decide),
   ptrToIdx_idxToPtr_roundTrip 5 1024 8 3 (by norm_num) (by decide)⟩

/-! ## C9: small-object PtrToIdx is base-independent -/

/-- C9: for object sizes at or below the multi-page threshold and pointers in
the span's first page, `PtrToIdx` equals the pointer's within-page offset
divided by the small fixed alignment, and does not depend on the span's base
page at all. -/
theorem ptrToIdx_small_spec (base base' p size : Nat)
    (hs : size ≤ SizeMap.kMultiPageSize)
    (hlo : base ≤ p) (hhi : p < base + kPageSize) :
    PtrToIdx base p size = (p &&& (kPageSize - 1)) / kAlignment ∧
    PtrToIdx base p size = PtrToIdx base' p size := by
  constructor
  · unfold PtrToIdx
    simp only [hs, if_true]
    apply Nat.mod_eq_of_lt
    have hpage : kPageSize = 2 ^ 18 := by norm_num [kPageSize, kPageShift]
    rw [hpage, Nat.and_pow_two_sub_one_eq_mod]
    have h1 : p % 2 ^ 18 < 2 ^ 18 := Nat.mod_lt _ (by norm_num)
    have h2 : kAlignment = 8 := rfl
    rw [h2]
    omega
  · unfold PtrToIdx
    simp only [hs, if_true]

/-- Witness for C9. -/
theorem ptrToIdx_small_spec_witness :
    PtrToIdx (pageStart 1) (pageStart 1 + 24) 16
        = ((pageStart 1 + 24) &&& (kPageSize - 1)) / kAlignment ∧
    PtrToIdx (pageStart 1) (pageStart 1 + 24) 16
        = PtrToIdx 12345 (pageStart 1 + 24) 16 :=
  ptrToIdx_small_spec (pageStart 1) 12345 (pageStart 1 + 24) 16 (by decide)
    (by omega) (by norm_num [pageStart, kPageSize, kPageShift])

/-! ## C5: fragmentation estimate -/

/-- C5: with object capacity `C` (span bytes over the class's object size)
and live count `L = allocated_`, `Fragmentation()` returns exactly
`(C - L) / L` when `0 < L ≤ C` (hence `0` when `L = C`), and returns `0`
defensively when `L = 0` or when the size-class lookup yields class `0`. -/
theorem fragmentation_spec (sizeclass class_to_size : Nat → Nat) (s : Span) :
    (sizeclass s.first_page_ ≠ 0 → 0 < s.allocated_ →
      s.allocated_ ≤ s.bytes_in_span / class_to_size (sizeclass s.first_page_) →
      s.fragmentation sizeclass class_to_size =
        ((s.bytes_in_span / class_to_size (sizeclass s.first_page_)
           - s.allocated_ : ℕ) : ℚ) / (s.allocated_ : ℚ)) ∧
    (sizeclass s.first_page_ ≠ 0 → 0 < s.allocated_ →
      s.allocated_ = s.bytes_in_span / class_to_size (sizeclass s.first_page_) →
      s.fragmentation sizeclass class_to_size = 0) ∧
    (s.allocated_ = 0 → s.fragmentation sizeclass class_to_size = 0) ∧
    (sizeclass s.first_page_ = 0 → s.fragmentation sizeclass class_to_size = 0) := by
  refine ⟨?_, ?_, ?_, ?_⟩
  · intro hcl hL hLC
    simp only [Span.fragmentation]
    rw [if_neg hcl, if_neg (Nat.pos_iff_ne_zero.mp hL), Nat.cast_sub hLC]
  · intro hcl hL hLC
    simp only [Span.fragmentation]
    rw [if_neg hcl, if_neg (Nat.pos_iff_ne_zero.mp hL), hLC]
    simp
  · intro hL
    by_cases hcl : sizeclass s.first_page_ = 0 <;>
      simp [Span.fragmentation, hcl, hL]
  · intro hcl
    simp [Span.fragmentation, hcl]

/-- Witness for C5: class 1 of object size 16 on a one-page span
(capacity 16384) with 100 live objects. -/
theorem fragmentation_spec_witness :
    Span.fragmentation (fun _ => 1) (fun _ => 16)
        { testSpan with allocated_ := 100 }
      = (({ testSpan with allocated_ := 100 }.bytes_in_span
            / (fun _ : Nat => 16) ((fun _ : Nat => 1)
                { testSpan with allocated_ := 100 }.first_page_)
          - { testSpan with allocated_ := 100 }.allocated_ : ℕ) : ℚ)
        / ({ testSpan with allocated_ := 100 }.allocated_ : ℚ) :=
  (fragmentation_spec (fun _ => 1) (fun _ => 16)
      { testSpan with allocated_ := 100 }).1
    (by decide) (by decide) (by decide)

/-! ## C8: aging-timestamp merge -/

/-- The page-count-weighted average of two timestamps, computed in `ℚ` and
floored back, equals the integer formula. -/
theorem averageFreelistAddedTime_formula (s other : Span) :
    (s.averageFreelistAddedTime other).freelist_added_time_ =
      (s.freelist_added_time_ * s.num_pages_ +
        other.freelist_added_time_ * other.num_pages_) /
        (s.num_pages_ + other.num_pages_) := by
  unfold Span.averageFreelistAddedTime
  show (⌊_⌋₊ : Nat) = _
  have hnum : (s.freelist_added_time_ : ℚ) * (s.num_pages_ : ℚ) +
      (other.freelist_added_time_ : ℚ) * (other.num_pages_ : ℚ) =
      ((s.freelist_added_time_ * s.num_pages_ +
        other.freelist_added_time_ * other.num_pages_ : ℕ) : ℚ) := by
    push_cast; ring
  have hden : (s.num_pages_ : ℚ) + (other.num_pages_ : ℚ) =
      ((s.num_pages_ + other.num_pages_ : ℕ) : ℚ) := by push_cast; ring
  rw [hnum, hden, Nat.floor_div_nat, Nat.floor_natCast]

/-- C8: `AverageFreelistAddedTime` sets this span's aging timestamp to the
page-count-weighted average of the two timestamps (computed in floating
point, modelled exactly in `ℚ`, and converted back to the integer
representation); merging timestamp 100 with 1 page into timestamp 300 with
3 pages yields 250. -/
theorem averageFreelistAddedTime_spec :
    (∀ s other : Span,
      (s.averageFreelistAddedTime other).freelist_added_time_ =
        (s.freelist_added_time_ * s.num_pages_ +
          other.freelist_added_time_ * other.num_pages_) /
          (s.num_pages_ + other.num_pages_)) ∧
    (Span.averageFreelistAddedTime
      { testSpan with freelist_added_time_ := 100, num_pages_ := 1 }
      { testSpan with freelist_added_time_ := 300, num_pages_ := 3
      }).freelist_added_time_ = 250 := by
  refine ⟨averageFreelistAddedTime_formula, ?_⟩
  rw [averageFreelistAddedTime_formula]
  rfl

/-! ## C6 and C7: sampling bookkeeping -/

/-- C6: on an unsampled span, `Sample(stack)` followed by `Unsample()`
returns the identical record, leaves the span unsampled with no stored
record, and (in this race-free model) restores the shared sampled-objects
byte counter and the shared sampled-span list to their values before
`Sample`. -/
theorem sample_unsample_roundTrip {σ : Type} (allocatedBytes : σ → ℤ)
    (stack : σ) (s : SampleSpan σ) (g : GlobalSampleState)
    (h : s.sampled_ = false) :
    (Unsample allocatedBytes (Sample allocatedBytes stack s g).1
        (Sample allocatedBytes stack s g).2).1 = some stack ∧
    (Unsample allocatedBytes (Sample allocatedBytes stack s g).1
        (Sample allocatedBytes stack s g).2).2.1.sampled_ = false ∧
    (Unsample allocatedBytes (Sample allocatedBytes stack s g).1
        (Sample allocatedBytes stack s g).2).2.1.sampled_stack_ = none ∧
    (Unsample allocatedBytes (Sample allocatedBytes stack s g).1
        (Sample allocatedBytes stack s g).2).2.2.sampled_objects_size
      = g.sampled_objects_size ∧
    (Unsample allocatedBytes (Sample allocatedBytes stack s g).1
        (Sample allocatedBytes stack s g).2).2.2.sampled_objects
      = g.sampled_objects := by
  simp [Sample, Unsample, List.erase_cons_head]

/-- Witness for C6. -/
theorem sample_unsample_roundTrip_witness :
    (Unsample (fun n => (n : ℤ)) (Sample (fun n => (n : ℤ)) 7
        ⟨1, false, none⟩ ⟨[], 0⟩).1
      (Sample (fun n => (n : ℤ)) 7 ⟨1, false, none⟩ ⟨[], 0⟩).2).1 = some 7 ∧
    (Unsample (fun n => (n : ℤ)) (Sample (fun n => (n : ℤ)) 7
        ⟨1, false, none⟩ ⟨[], 0⟩).1
      (Sample (fun n => (n : ℤ)) 7 ⟨1, false, none⟩ ⟨[], 0⟩).2).2.1.sampled_
        = false ∧
    (Unsample (fun n => (n : ℤ)) (Sample (fun n => (n : ℤ)) 7
        ⟨1, false, none⟩ ⟨[], 0⟩).1
      (Sample (fun n => (n : ℤ)) 7 ⟨1, false, none⟩
        ⟨[], 0⟩).2).2.1.sampled_stack_ = none ∧
    (Unsample (fun n => (n : ℤ)) (Sample (fun n => (n : ℤ)) 7
        ⟨1, false, none⟩ ⟨[], 0⟩).1
      (Sample (fun n => (n : ℤ)) 7 ⟨1, false, none⟩
        ⟨[], 0⟩).2).2.2.sampled_objects_size
        = (⟨[], 0⟩ : GlobalSampleState).sampled_objects_size ∧
    (Unsample (fun n => (n : ℤ)) (Sample (fun n => (n : ℤ)) 7
        ⟨1, false, none⟩ ⟨[], 0⟩).1
      (Sample (fun n => (n : ℤ)) 7 ⟨1, false, none⟩
        ⟨[], 0⟩).2).2.2.sampled_objects
        = (⟨[], 0⟩ : GlobalSampleState).sampled_objects :=
  sample_unsample_roundTrip (fun n => (n : ℤ)) 7 ⟨1, false, none⟩ ⟨[], 0⟩ rfl

/-- C7: `Unsample()` on a span that is not sampled returns a null result and
has no side effects on the span, the shared sampled-span list, or the shared
byte counter. -/
theorem unsample_noop {σ : Type} (allocatedBytes : σ → ℤ)
    (s : SampleSpan σ) (g : GlobalSampleState) (h : s.sampled_ = false) :
    Unsample allocatedBytes s g = (none, s, g) := by
  simp [Unsample, h]

/-- Witness for C7. -/
theorem unsample_noop_witness :
    Unsample (fun n => (n : ℤ)) ⟨1, false, none⟩ ⟨[2, 3], 5⟩
      = (none, ⟨1, false, none⟩, ⟨[2, 3], 5⟩) :=
  unsample_noop (fun n => (n : ℤ)) ⟨1, false, none⟩ ⟨[2, 3], 5⟩ rfl

/-! ## C3: the worked construction example -/

/-- C3: with alignment 8, object size 16 (index step 2), object count 6 and
inline-cache capacity 4, `BuildFreelist` yields: inline cache `[0, 2, 4, 6]`
with cache count 4; a one-node chain whose head is index 8, whose forward
link is the sentinel, and which holds exactly one embedded entry, 10; and
`embed_count_ == 1`, so all 6 objects are accounted for as
4 cached + 1 chain head + 1 embedded. -/
theorem buildFreelist_example :
    cacheList (testSpan.buildFreelist 16 6) = [0, 2, 4, 6] ∧
    (testSpan.buildFreelist 16 6).cache_size_ = 4 ∧
    (testSpan.buildFreelist 16 6).freelist_ = 8 ∧
    (testSpan.buildFreelist 16 6).mem
        (IdxToPtr (pageStart testSpan.first_page_) 8 16) = kListEnd ∧
    nodeEmbedded (testSpan.buildFreelist 16 6).mem
        (IdxToPtr (pageStart testSpan.first_page_) 8 16)
        (testSpan.buildFreelist 16 6).embed_count_ = [10] ∧
    (testSpan.buildFreelist 16 6).embed_count_ = 1 ∧
    chainNodes (pageStart testSpan.first_page_) 16
        (testSpan.buildFreelist 16 6).mem 6
        (testSpan.buildFreelist 16 6).freelist_ = [8] ∧
    (cacheList (testSpan.buildFreelist 16 6) ++
      chainRead (pageStart testSpan.first_page_) 16 (16 / 2 - 1)
        (testSpan.buildFreelist 16 6).mem 6
        (testSpan.buildFreelist 16 6).freelist_
        (testSpan.buildFreelist 16 6).embed_count_).length = 6 := by
  decide

/-! ## Arithmetic and address-disjointness lemmas -/

theorem sub16_eq (a b : Nat) (hba : b ≤ a) (ha : a < 2 ^ 16) (hb : b ≤ 2 ^ 16) :
    sub16 a b = a - b := by
  unfold sub16
  have h1 : a + (2 ^ 16 - b) = (a - b) + 2 ^ 16 := by omega
  rw [h1, Nat.add_mod_right]
  exact Nat.mod_eq_of_lt (by omega)

theorem IdxToPtr_eq (base idx size : Nat) :
    IdxToPtr base idx size = base + idx * alignSize size := by
  unfold IdxToPtr alignSize alignShift
  by_cases hs : size ≤ SizeMap.kMultiPageSize <;> simp [hs, Nat.shiftLeft_eq]

/-- Slots of the object at a smaller index lie strictly below the start of
the object at a larger index (both indices multiples of the step, slot
offset below the object size). -/
theorem addr_slot_lt (base size step n m k : Nat)
    (hA : step * alignSize size = size) (hk : 2 * k < size)
    (hnm : n < m) (hdn : step ∣ n) (hdm : step ∣ m) :
    IdxToPtr base n size + 2 * k < IdxToPtr base m size := by
  rw [IdxToPtr_eq, IdxToPtr_eq]
  have hstepd : step ∣ m - n := Nat.dvd_sub' hdm hdn
  have hsm : step ≤ m - n := Nat.le_of_dvd (by omega) hstepd
  have h1 : n * alignSize size + step * alignSize size ≤ m * alignSize size := by
    have h2 : (n + step) * alignSize size ≤ m * alignSize size :=
      Nat.mul_le_mul_right _ (by omega)
    calc n * alignSize size + step * alignSize size
        = (n + step) * alignSize size := by ring
      _ ≤ m * alignSize size := h2
  omega

/-! ## rangeStep lemmas -/

theorem rangeStep_nil (a b step : Nat) (h : b ≤ a) : rangeStep a b step = [] := by
  unfold rangeStep
  have h0 : b - a = 0 := Nat.sub_eq_zero_of_le h
  simp [h0]

theorem rangeStep_cons (a b step : Nat) (hs : 0 < step) (hab : a < b)
    (hd : step ∣ b - a) :
    rangeStep a b step = a :: rangeStep (a + step) b step := by
  obtain ⟨c, hc⟩ := hd
  have hc0 : c ≠ 0 := by rintro rfl; omega
  obtain ⟨c', rfl⟩ : ∃ c', c = c' + 1 := ⟨c - 1, by omega⟩
  have hmul : step * (c' + 1) = step * c' + step := by ring
  unfold rangeStep
  have h1 : (b - a) / step = c' + 1 := by rw [hc]; exact Nat.mul_div_cancel_left _ hs
  have h2 : (b - (a + step)) / step = c' := by
    have hsub : b - (a + step) = step * c' := by omega
    rw [hsub]; exact Nat.mul_div_cancel_left _ hs
  rw [h1, h2, List.range_succ_eq_map, List.map_cons, List.map_map]
  have hfun : ((fun k => a + k * step) ∘ Nat.succ) = fun k => (a + step) + k * step := by
    funext k
    simp only [Function.comp_apply, Nat.succ_eq_add_one]
    ring
  rw [hfun]
  simp

theorem rangeStep_snoc (a b step : Nat) (hs : 0 < step) (hab : a < b)
    (hd : step ∣ b - a) :
    rangeStep a b step = rangeStep a (b - step) step ++ [b - step] := by
  obtain ⟨c, hc⟩ := hd
  have hc0 : c ≠ 0 := by rintro rfl; omega
  obtain ⟨c', rfl⟩ : ∃ c', c = c' + 1 := ⟨c - 1, by omega⟩
  have hmul : step * (c' + 1) = step * c' + step := by ring
  unfold rangeStep
  have h1 : (b - a) / step = c' + 1 := by rw [hc]; exact Nat.mul_div_cancel_left _ hs
  have h2 : (b - step - a) / step = c' := by
    have hsub : b - step - a = step * c' := by omega
    rw [hsub]; exact Nat.mul_div_cancel_left _ hs
  rw [h1, h2, List.range_succ, List.map_append]
  simp only [List.map_cons, List.map_nil]
  have h3 : a + c' * step = b - step := by rw [Nat.mul_comm]; omega
  rw [h3]

theorem rangeStep_zero (count step : Nat) (hs : 0 < step) :
    rangeStep 0 (count * step) step = (List.range count).map (· * step) := by
  unfold rangeStep
  have h1 : (count * step - 0) / step = count := by
    simp [Nat.mul_div_cancel _ hs]
  rw [h1]
  apply List.map_congr_left
  intro k _
  omega

theorem rangeStep_append (step : Nat) (hs : 0 < step) :
    ∀ (j a b : Nat), a + j * step ≤ b → step ∣ b - (a + j * step) →
      rangeStep a (a + j * step) step ++ rangeStep (a + j * step) b step
        = rangeStep a b step
  | 0, a, b, _, _ => by
    rw [rangeStep_nil a (a + 0 * step) step (by omega)]
    simp
  | j + 1, a, b, hle, hd => by
    have hj : (j + 1) * step = j * step + step := by ring
    have h1 : a < a + (j + 1) * step := by omega
    have h2 : step ∣ (a + (j + 1) * step) - a := ⟨j + 1, by
      have e2 : step * (j + 1) = j * step + step := by ring
      omega⟩
    rw [rangeStep_cons a (a + (j + 1) * step) step hs h1 h2]
    have h3 : a + (j + 1) * step = (a + step) + j * step := by omega
    rw [List.cons_append, h3]
    rw [rangeStep_append step hs j (a + step) b (by omega) (by rw [← h3]; exact hd)]
    obtain ⟨c, hc⟩ := hd
    refine (rangeStep_cons a b step hs (by omega) ⟨c + (j + 1), ?_⟩).symm
    have e1 : step * (c + (j + 1)) = step * c + (j + 1) * step := by ring
    omega

/-! ## Memory-update invariance of the chain readers -/

theorem nodeEmbedded_update (mem : Nat → Nat) (hAddr e a v : Nat)
    (hfresh : ∀ i, i < e → hAddr + 2 * (i + 1) ≠ a) :
    nodeEmbedded (Function.update mem a v) hAddr e = nodeEmbedded mem hAddr e := by
  unfold nodeEmbedded
  apply List.map_congr_left
  intro i hi
  rw [List.mem_range] at hi
  rw [Function.update_apply, if_neg (hfresh i hi)]

theorem chainElemsFull_update (base size me : Nat) (mem : Nat → Nat) (a v : Nat) :
    ∀ ns : List Nat,
      (∀ n ∈ ns, ∀ i, i < me → IdxToPtr base n size + 2 * (i + 1) ≠ a) →
      chainElemsFull base size me (Function.update mem a v) ns
        = chainElemsFull base size me mem ns
  | [], _ => rfl
  | n :: rest, hfresh => by
    unfold chainElemsFull
    rw [nodeEmbedded_update mem (IdxToPtr base n size) me a v (hfresh n (by simp)),
        chainElemsFull_update base size me mem a v rest
          (fun m hm => hfresh m (by simp [hm]))]

theorem ChainRep_update (base size : Nat) (mem : Nat → Nat) (a v : Nat) :
    ∀ (ns : List Nat) (head : Nat),
      ChainRep base size mem head ns →
      (∀ n ∈ ns, IdxToPtr base n size ≠ a) →
      ChainRep base size (Function.update mem a v) head ns
  | [], _, h, _ => h
  | n :: rest, head, h, hfresh => by
    obtain ⟨h1, hrest⟩ := h
    refine ⟨h1, ?_⟩
    rw [Function.update_apply, if_neg (hfresh n (by simp))]
    exact ChainRep_update base size mem a v rest _ hrest
      (fun m hm => hfresh m (by simp [hm]))

/-! ## Bridging the fuel-bounded walkers with `ChainRep` -/

theorem chainElems_me (base size me : Nat) (mem : Nat → Nat) :
    ∀ ns, chainElems base size me mem me ns = chainElemsFull base size me mem ns
  | [] => rfl
  | _ :: _ => rfl

theorem chainRead_eq (base size me : Nat) (mem : Nat → Nat) :
    ∀ (ns : List Nat) (fuel head e : Nat),
      ChainRep base size mem head ns →
      (∀ n ∈ ns, n ≠ kListEnd) →
      ns.length ≤ fuel →
      chainRead base size me mem fuel head e = chainElems base size me mem e ns
  | [], fuel, head, e, hrep, _, _ => by
    cases fuel with
    | zero => rfl
    | succ f =>
      have h0 : head = kListEnd := hrep
      unfold chainRead
      rw [if_pos h0]
      rfl
  | n :: rest, fuel, head, e, hrep, hne, hlen => by
    obtain ⟨h1, hrest⟩ := hrep
    subst h1
    cases fuel with
    | zero => simp at hlen
    | succ f =>
      unfold chainRead
      rw [if_neg (hne head (by simp))]
      unfold chainElems
      rw [chainRead_eq base size me mem rest f
            (mem (IdxToPtr base head size)) me hrest
            (fun m hm => hne m (by simp [hm])) (by simpa using hlen),
          chainElems_me]

theorem chainNodes_eq (base size : Nat) (mem : Nat → Nat) :
    ∀ (ns : List Nat) (fuel head : Nat),
      ChainRep base size mem head ns →
      (∀ n ∈ ns, n ≠ kListEnd) →
      ns.length ≤ fuel →
      chainNodes base size mem fuel head = ns
  | [], fuel, head, hrep, _, _ => by
    cases fuel with
    | zero => rfl
    | succ f =>
      have h0 : head = kListEnd := hrep
      unfold chainNodes
      rw [if_pos h0]
  | n :: rest, fuel, head, hrep, hne, hlen => by
    obtain ⟨h1, hrest⟩ := hrep
    subst h1
    cases fuel with
    | zero => simp at hlen
    | succ f =>
      unfold chainNodes
      rw [if_neg (hne head (by simp)),
          chainNodes_eq base size mem rest f (mem (IdxToPtr base head size))
            hrest (fun m hm => hne m (by simp [hm])) (by simpa using hlen)]

theorem chainElemsFull_length (base size me : Nat) (mem : Nat → Nat) :
    ∀ ns : List Nat,
      (chainElemsFull base size me mem ns).length = ns.length * (1 + me)
  | [] => by simp [chainElemsFull]
  | n :: rest => by
    unfold chainElemsFull
    simp [nodeEmbedded, chainElemsFull_length base size me mem rest]
    ring

theorem chainElems_length (base size me : Nat) (mem : Nat → Nat) (e : Nat) :
    ∀ ns : List Nat, ns ≠ [] →
      (chainElems base size me mem e ns).length
        = e + ns.length + (ns.length - 1) * me
  | [], h => absurd rfl h
  | n :: rest, _ => by
    unfold chainElems
    simp [nodeEmbedded, chainElemsFull_length base size me mem rest]
    ring

/-! ## The cache-filling loop meets its specification -/

theorem fillCache_spec (step count : Nat) (hs : 0 < step)
    (hE16 : count * step < 2 ^ 16) :
    ∀ (fuel cs idx : Nat) (cache : Nat → Nat),
      idx = cs * step →
      (∀ i, i < cs → cache i = i * step) →
      cs ≤ kCacheSize →
      idx ≤ count * step →
      kCacheSize - cs ≤ fuel →
      (fillCache step (count * step) fuel idx cs cache).2.1
          = min count kCacheSize ∧
      (fillCache step (count * step) fuel idx cs cache).1
          = (fillCache step (count * step) fuel idx cs cache).2.1 * step ∧
      (∀ i, i < (fillCache step (count * step) fuel idx cs cache).2.1 →
        (fillCache step (count * step) fuel idx cs cache).2.2 i = i * step) := by
  intro fuel
  induction fuel with
  | zero =>
    intro cs idx cache hidx hcache hcs hle hfuel
    have hK : kCacheSize = 4 := rfl
    have hcs4 : cs = kCacheSize := by omega
    subst hcs4
    rw [hK] at hidx ⊢
    have hcount : (4 : Nat) ≤ count := by
      by_contra hcc
      push_neg at hcc
      have h4 : count * step ≤ 3 * step :=
        Nat.mul_le_mul_right step (by omega)
      omega
    have hfc : fillCache step (count * step) 0 idx 4 cache
        = (idx, 4, cache) := rfl
    rw [hfc]
    exact ⟨(min_eq_right hcount).symm, hidx, fun i hi => hcache i hi⟩
  | succ f ih =>
    intro cs idx cache hidx hcache hcs hle hfuel
    by_cases hcond : idx < count * step ∧ cs < kCacheSize
    · have hred : fillCache step (count * step) (f + 1) idx cs cache
          = fillCache step (count * step) f ((idx + step) % 2 ^ 16) (cs + 1)
              (Function.update cache cs idx) := by
        simp only [fillCache]
        rw [if_pos hcond]
    -- the next index is (cs + 1) * step and does not wrap
      have hnext : (cs + 1) * step ≤ count * step := by
        have hcslt : cs < count := by
          by_contra hcc
          push_neg at hcc
          have h4 := Nat.mul_le_mul_right step hcc
          omega
        exact Nat.mul_le_mul_right _ (by omega)
      have hsum : (cs + 1) * step = cs * step + step := by ring
      have hmod : (idx + step) % 2 ^ 16 = idx + step := Nat.mod_eq_of_lt (by omega)
      rw [hred, hmod]
      refine ih (cs + 1) (idx + step) (Function.update cache cs idx)
        (by omega) ?_ (by omega) (by omega) (by omega)
      intro i hi
      rcases Nat.lt_succ_iff_lt_or_eq.mp hi with hi' | hi'
      · rw [Function.update_apply, if_neg (by omega)]
        exact hcache i hi'
      · subst hi'
        rw [Function.update_same]
        exact hidx
    · have hred : fillCache step (count * step) (f + 1) idx cs cache
          = (idx, cs, cache) := by
        simp only [fillCache]
        rw [if_neg hcond]
      rw [hred]
      by_cases hidxE : idx < count * step
      · have hcs4 : cs = kCacheSize := by
          have : ¬ cs < kCacheSize := fun h => hcond ⟨hidxE, h⟩
          omega
        subst hcs4
        have hcount : kCacheSize < count := by
          by_contra hcc
          push_neg at hcc
          have h4 := Nat.mul_le_mul_right step hcc
          omega
        refine ⟨(min_eq_right (le_of_lt hcount)).symm, hidx,
          fun i hi => hcache i hi⟩
      · have heq : idx = count * step := by omega
        have hcseq : cs = count := by
          apply Nat.eq_of_mul_eq_mul_right hs
          omega
        subst hcseq
        refine ⟨(min_eq_left hcs).symm, hidx, fun i hi => hcache i hi⟩

/-! ## Unfolding lemmas for the chain-building loop -/

theorem buildLoop_exit (base size step me f idx idxEnd : Nat) (st : ChainSt)
    (hlt : ¬ idx < idxEnd) :
    buildLoop base size step me (f + 1) idx idxEnd st = st := by
  simp only [buildLoop]
  rw [if_neg hlt]

theorem buildLoop_succ_none (base size step me f idx idxEnd fl ec : Nat)
    (mem : Nat → Nat) (hlt : idx < idxEnd) :
    buildLoop base size step me (f + 1) idx idxEnd ⟨fl, none, ec, mem⟩
      = buildLoop base size step me f ((idx + step) % 2 ^ 16) idxEnd
          ⟨idx, some (IdxToPtr base idx size), 0,
           Function.update mem (IdxToPtr base idx size) fl⟩ := by
  simp only [buildLoop, buildHostStep]
  rw [if_pos hlt]

theorem buildLoop_succ_host (base size step me f idx idxEnd fl hAddr ec : Nat)
    (mem : Nat → Nat) (hlt : idx < idxEnd) (hfull : ¬ ec ≠ me) :
    buildLoop base size step me (f + 1) idx idxEnd ⟨fl, some hAddr, ec, mem⟩
      = buildLoop base size step me f ((idx + step) % 2 ^ 16) idxEnd
          ⟨idx, some (IdxToPtr base idx size), 0,
           Function.update mem (IdxToPtr base idx size) fl⟩ := by
  simp only [buildLoop, buildHostStep]
  rw [if_pos hlt, if_neg hfull]

theorem buildLoop_succ_embed (base size step me f idx idxEnd fl hAddr ec : Nat)
    (mem : Nat → Nat) (hlt : idx < idxEnd) (hfull : ec ≠ me) :
    buildLoop base size step me (f + 1) idx idxEnd ⟨fl, some hAddr, ec, mem⟩
      = buildLoop base size step me f idx (sub16 idxEnd step)
          ⟨fl, some hAddr, ec + 1,
           Function.update mem (hAddr + 2 * (ec + 1)) (sub16 idxEnd step)⟩ := by
  simp only [buildLoop]
  rw [if_pos hlt, if_pos hfull]

/-! ## The chain-building loop invariant -/

/-- Main invariant of the chain-building loop of `BuildFreelist`: starting
from a well-formed chain state holding exactly the already-consumed indices,
the loop extends the chain by exactly the remaining index range
`[idx, idxEnd)`, keeping every structural invariant (distinct step-aligned
nodes below the consumption point, bounded embed count, full non-head
nodes). -/
theorem buildLoop_spec (base size step me E0 : Nat)
    (hA : step * alignSize size = size)
    (hme : 2 * (me + 1) = size)
    (hE0 : E0 < kListEnd) :
    ∀ (fuel idx idxEnd : Nat) (st : ChainSt) (ns : List Nat),
      idx ≤ idxEnd → idxEnd ≤ E0 →
      step ∣ idx → step ∣ idxEnd →
      idxEnd - idx ≤ fuel * step →
      ChainRep base size st.mem st.freelist ns →
      List.Pairwise (fun x y => y < x) ns →
      (∀ n ∈ ns, step ∣ n ∧ n < idx) →
      st.host = ns.head?.map (fun n => IdxToPtr base n size) →
      (ns = [] → st.embed_count = 0) →
      st.embed_count ≤ me →
      ∃ ns' : List Nat,
        ChainRep base size (buildLoop base size step me fuel idx idxEnd st).mem
          (buildLoop base size step me fuel idx idxEnd st).freelist ns' ∧
        List.Pairwise (fun x y => y < x) ns' ∧
        (∀ n ∈ ns', step ∣ n ∧ n < idxEnd) ∧
        (buildLoop base size step me fuel idx idxEnd st).embed_count ≤ me ∧
        (ns' = [] →
          (buildLoop base size step me fuel idx idxEnd st).embed_count = 0) ∧
        ns'.length * step ≤ ns.length * step + (idxEnd - idx) ∧
        ((chainElems base size me
            (buildLoop base size step me fuel idx idxEnd st).mem
            (buildLoop base size step me fuel idx idxEnd st).embed_count
            ns').Perm
          (chainElems base size me st.mem st.embed_count ns ++
            rangeStep idx idxEnd step)) := by
  have hsize : 0 < size := by omega
  have hstep : 0 < step := by
    rcases Nat.eq_zero_or_pos step with h | h
    · rw [h, Nat.zero_mul] at hA
      omega
    · exact h
  have hkl := kListEnd_lt_two_pow_16
  intro fuel
  induction fuel with
  | zero =>
    intro idx idxEnd st ns h1 h2 hd1 hd2 hfuel hrep hpw hmem hhost hemb0 hemb
    have hEq : idxEnd = idx := by omega
    subst hEq
    refine ⟨ns, hrep, hpw, fun n hn => ⟨(hmem n hn).1, (hmem n hn).2⟩,
      hemb, hemb0, by omega, ?_⟩
    rw [rangeStep_nil _ _ _ le_rfl, List.append_nil]
    exact List.Perm.refl _
  | succ f ih =>
    intro idx idxEnd st ns h1 h2 hd1 hd2 hfuel hrep hpw hmem hhost hemb0 hemb
    have hfs : (f + 1) * step = f * step + step := by ring
    obtain ⟨fl, host, ec, mem⟩ := st
    dsimp only at hrep hhost hemb0 hemb
    by_cases hlt : idx < idxEnd
    · -- loop body executes
      have hsub : step ≤ idxEnd - idx := by
        have hdd : step ∣ idxEnd - idx := Nat.dvd_sub' hd2 hd1
        exact Nat.le_of_dvd (by omega) hdd
      have h16 : idxEnd < 2 ^ 16 := by omega
      cases host with
      | none =>
        -- no host yet: the chain is empty, push the first host
        have hns : ns = [] := by
          cases ns with
          | nil => rfl
          | cons n rest => simp at hhost
        subst hns
        have hmod : (idx + step) % 2 ^ 16 = idx + step :=
          Nat.mod_eq_of_lt (by omega)
        rw [buildLoop_succ_none base size step me f idx idxEnd fl ec mem hlt,
          hmod]
        have hfr : ∀ n' ∈ ([] : List Nat), ∀ i, i < me →
            IdxToPtr base n' size + 2 * (i + 1) ≠ IdxToPtr base idx size := by
          intro n' hn'
          simp at hn'
        have hrep1 : ChainRep base size
            (Function.update mem (IdxToPtr base idx size) fl) idx [idx] := by
          refine ⟨rfl, ?_⟩
          show Function.update mem (IdxToPtr base idx size) fl
              (IdxToPtr base idx size) = kListEnd
          rw [Function.update_same]
          exact hrep
        obtain ⟨ns', c1, c2, c3, c4, c5, c6, c7⟩ :=
          ih (idx + step) idxEnd
            ⟨idx, some (IdxToPtr base idx size), 0,
             Function.update mem (IdxToPtr base idx size) fl⟩ [idx]
            (by omega) h2 (by exact Nat.dvd_add hd1 dvd_rfl) hd2 (by omega)
            hrep1 (by simp)
            (by
              intro m hm
              simp at hm
              subst hm
              exact ⟨hd1, by omega⟩)
            (by simp) (by simp) (Nat.zero_le me)
        refine ⟨ns', c1, c2, fun n hn => ⟨(c3 n hn).1, (c3 n hn).2⟩, c4, c5,
          ?_, ?_⟩
        · have hlen : ([idx] : List Nat).length * step = step := by
            simp
          have hlen0 : ([] : List Nat).length * step = 0 := by simp
          omega
        · -- assemble the permutation
          have hCE1 : chainElems base size me
              (Function.update mem (IdxToPtr base idx size) fl) 0 [idx]
                = [idx] := by
            simp [chainElems, chainElemsFull, nodeEmbedded]
          rw [hCE1] at c7
          have hCEst : chainElems base size me mem ec ([] : List Nat) = [] := rfl
          rw [hCEst, List.nil_append]
          have hR : rangeStep idx idxEnd step
              = idx :: rangeStep (idx + step) idxEnd step :=
            rangeStep_cons idx idxEnd step hstep hlt (Nat.dvd_sub' hd2 hd1)
          rw [hR]
          simpa using c7
      | some hAddr =>
        -- there is a head chain node: ns = n :: rest
        cases ns with
        | nil => simp at hhost
        | cons n rest =>
          have hhost' : hAddr = IdxToPtr base n size := by simpa using hhost
          subst hhost'
          have hpn := List.pairwise_cons.mp hpw
          have hdn : step ∣ n := (hmem n (by simp)).1
          have hnidx : n < idx := (hmem n (by simp)).2
          by_cases hfull : ec ≠ me
          · -- embed one more index into the current host
            have hE' : sub16 idxEnd step = idxEnd - step :=
              sub16_eq idxEnd step (by omega) h16 (by omega)
            rw [buildLoop_succ_embed base size step me f idx idxEnd fl
              (IdxToPtr base n size) ec mem hlt hfull, hE']
            -- freshness of the written slot
            have hfr1 : ∀ n' ∈ n :: rest, IdxToPtr base n' size
                ≠ IdxToPtr base n size + 2 * (ec + 1) := by
              intro n' hn'
              rcases List.mem_cons.mp hn' with h | h
              · subst h
                omega
              · have hlt' := addr_slot_lt base size step n' n 0 hA
                  (by omega) (hpn.1 n' h) (hmem n' (by simp [h])).1 hdn
                omega
            have hfr2 : ∀ i, i < ec → IdxToPtr base n size + 2 * (i + 1)
                ≠ IdxToPtr base n size + 2 * (ec + 1) := by
              intro i hi
              omega
            have hfr3 : ∀ n' ∈ rest, ∀ i, i < me →
                IdxToPtr base n' size + 2 * (i + 1)
                  ≠ IdxToPtr base n size + 2 * (ec + 1) := by
              intro n' hn' i hi
              have hlt' := addr_slot_lt base size step n' n (i + 1) hA
                (by omega) (hpn.1 n' hn') (hmem n' (by simp [hn'])).1 hdn
              omega
            have hrep1 : ChainRep base size
                (Function.update mem (IdxToPtr base n size + 2 * (ec + 1))
                  (idxEnd - step)) fl (n :: rest) :=
              ChainRep_update base size mem _ _ (n :: rest) fl hrep hfr1
            obtain ⟨ns', c1, c2, c3, c4, c5, c6, c7⟩ :=
              ih idx (idxEnd - step)
                ⟨fl, some (IdxToPtr base n size), ec + 1,
                 Function.update mem (IdxToPtr base n size + 2 * (ec + 1))
                   (idxEnd - step)⟩ (n :: rest)
                (by omega) (by omega) hd1 (Nat.dvd_sub' hd2 dvd_rfl)
                (by omega) hrep1 hpw hmem (by simp) (by simp)
                (by show ec + 1 ≤ me; omega)
            refine ⟨ns', c1, c2, fun m hm => ⟨(c3 m hm).1, by
              have := (c3 m hm).2
              omega⟩, c4, c5, by omega, ?_⟩
            -- assemble the permutation
            have hA1 : nodeEmbedded
                (Function.update mem (IdxToPtr base n size + 2 * (ec + 1))
                  (idxEnd - step)) (IdxToPtr base n size) (ec + 1)
                = nodeEmbedded mem (IdxToPtr base n size) ec
                    ++ [idxEnd - step] := by
              have h1 : nodeEmbedded
                  (Function.update mem (IdxToPtr base n size + 2 * (ec + 1))
                    (idxEnd - step)) (IdxToPtr base n size) (ec + 1)
                  = nodeEmbedded
                      (Function.update mem
                        (IdxToPtr base n size + 2 * (ec + 1)) (idxEnd - step))
                      (IdxToPtr base n size) ec
                    ++ [Function.update mem
                        (IdxToPtr base n size + 2 * (ec + 1)) (idxEnd - step)
                        (IdxToPtr base n size + 2 * (ec + 1))] := by
                unfold nodeEmbedded
                rw [List.range_succ, List.map_append]
                rfl
              rw [h1, nodeEmbedded_update mem (IdxToPtr base n size) ec _ _ hfr2,
                Function.update_same]
            have hCE1 : chainElems base size me
                (Function.update mem (IdxToPtr base n size + 2 * (ec + 1))
                  (idxEnd - step)) (ec + 1) (n :: rest)
                = n :: ((nodeEmbedded mem (IdxToPtr base n size) ec
                      ++ [idxEnd - step])
                    ++ chainElemsFull base size me mem rest) := by
              show n :: (nodeEmbedded
                  (Function.update mem (IdxToPtr base n size + 2 * (ec + 1))
                    (idxEnd - step)) (IdxToPtr base n size) (ec + 1)
                ++ chainElemsFull base size me
                    (Function.update mem (IdxToPtr base n size + 2 * (ec + 1))
                      (idxEnd - step)) rest) = _
              rw [hA1, chainElemsFull_update base size me mem _ _ rest hfr3]
            rw [hCE1] at c7
            have hCEst : chainElems base size me mem ec (n :: rest)
                = n :: (nodeEmbedded mem (IdxToPtr base n size) ec
                    ++ chainElemsFull base size me mem rest) := rfl
            rw [hCEst]
            have hR : rangeStep idx idxEnd step
                = rangeStep idx (idxEnd - step) step ++ [idxEnd - step] :=
              rangeStep_snoc idx idxEnd step hstep hlt (Nat.dvd_sub' hd2 hd1)
            rw [hR]
            refine c7.trans ?_
            simp only [List.cons_append, List.append_assoc, List.nil_append]
            refine List.Perm.cons n
              (List.Perm.append_left
                (nodeEmbedded mem (IdxToPtr base n size) ec) ?_)
            rw [← List.append_assoc]
            exact (List.perm_append_singleton _ _).symm
          · -- the current host is full: push a new host
            have hmod : (idx + step) % 2 ^ 16 = idx + step :=
              Nat.mod_eq_of_lt (by omega)
            rw [buildLoop_succ_host base size step me f idx idxEnd fl
              (IdxToPtr base n size) ec mem hlt hfull, hmod]
            have hec : ec = me := by omega
            have hfr0 : ∀ n' ∈ n :: rest,
                IdxToPtr base n' size ≠ IdxToPtr base idx size := by
              intro n' hn'
              have hlt' := addr_slot_lt base size step n' idx 0 hA
                (by omega) (hmem n' hn').2 (hmem n' hn').1 hd1
              omega
            have hfrF : ∀ n' ∈ n :: rest, ∀ i, i < me →
                IdxToPtr base n' size + 2 * (i + 1)
                  ≠ IdxToPtr base idx size := by
              intro n' hn' i hi
              have hlt' := addr_slot_lt base size step n' idx (i + 1) hA
                (by omega) (hmem n' hn').2 (hmem n' hn').1 hd1
              omega
            have hrep1 : ChainRep base size
                (Function.update mem (IdxToPtr base idx size) fl) idx
                (idx :: n :: rest) := by
              refine ⟨rfl, ?_⟩
              show ChainRep base size _
                (Function.update mem (IdxToPtr base idx size) fl
                  (IdxToPtr base idx size)) (n :: rest)
              rw [Function.update_same]
              exact ChainRep_update base size mem _ _ (n :: rest) fl hrep hfr0
            obtain ⟨ns', c1, c2, c3, c4, c5, c6, c7⟩ :=
              ih (idx + step) idxEnd
                ⟨idx, some (IdxToPtr base idx size), 0,
                 Function.update mem (IdxToPtr base idx size) fl⟩
                (idx :: n :: rest)
                (by omega) h2 (Nat.dvd_add hd1 dvd_rfl) hd2 (by omega)
                hrep1
                (List.pairwise_cons.mpr ⟨fun y hy => (hmem y hy).2, hpw⟩)
                (by
                  intro m hm
                  rcases List.mem_cons.mp hm with h | h
                  · subst h
                    exact ⟨hd1, by omega⟩
                  · exact ⟨(hmem m h).1, by have := (hmem m h).2; omega⟩)
                (by simp) (by simp) (Nat.zero_le me)
            refine ⟨ns', c1, c2, c3, c4, c5, ?_, ?_⟩
            · have hlen : (idx :: n :: rest).length * step
                  = (n :: rest).length * step + step := by
                simp [List.length_cons]
                ring
              omega
            · have hCE1 : chainElems base size me
                  (Function.update mem (IdxToPtr base idx size) fl) 0
                  (idx :: n :: rest)
                  = idx :: chainElemsFull base size me mem (n :: rest) := by
                show idx :: (nodeEmbedded
                    (Function.update mem (IdxToPtr base idx size) fl)
                    (IdxToPtr base idx size) 0
                  ++ chainElemsFull base size me
                      (Function.update mem (IdxToPtr base idx size) fl)
                      (n :: rest)) = _
                rw [chainElemsFull_update base size me mem _ _ (n :: rest) hfrF]
                rfl
              rw [hCE1] at c7
              have hCEst : chainElems base size me mem ec (n :: rest)
                  = chainElemsFull base size me mem (n :: rest) := by
                rw [hec]
                exact chainElems_me base size me mem (n :: rest)
              rw [hCEst]
              have hR : rangeStep idx idxEnd step
                  = idx :: rangeStep (idx + step) idxEnd step :=
                rangeStep_cons idx idxEnd step hstep hlt (Nat.dvd_sub' hd2 hd1)
              rw [hR]
              refine c7.trans ?_
              rw [List.cons_append]
              exact List.perm_middle.symm
    · -- loop exits
      rw [buildLoop_exit base size step me f idx idxEnd _ hlt]
      have hEq : idxEnd = idx := by omega
      refine ⟨ns, hrep, hpw, fun m hm => ⟨(hmem m hm).1, by
        have := (hmem m hm).2
        omega⟩, hemb, hemb0, by omega, ?_⟩
      rw [rangeStep_nil _ _ _ (by omega), List.append_nil]

/-! ## `BuildFreelist` meets its specification -/

theorem buildFreelist_first_page (s : Span) (size count : Nat) :
    (s.buildFreelist size count).first_page_ = s.first_page_ := rfl

/-- Derived facts about a legal object size: the step is positive, the size
is even and at least 8, and `max_embed + 1 = size / 2`. -/
theorem legal_size_facts (size : Nat) (hpos : 0 < size)
    (hA : idxStepOf size * alignSize size = size) :
    0 < idxStepOf size ∧ 2 * ((size / 2 - 1) + 1) = size := by
  have hstep : 0 < idxStepOf size := by
    rcases Nat.eq_zero_or_pos (idxStepOf size) with h | h
    · rw [h, Nat.zero_mul] at hA
      omega
    · exact h
  have hAval : alignSize size = 8 ∨ alignSize size = 64 := by
    unfold alignSize alignShift
    by_cases hs512 : size ≤ SizeMap.kMultiPageSize
    · left
      rw [if_pos hs512]
      decide
    · right
      rw [if_neg hs512]
      decide
  refine ⟨hstep, ?_⟩
  rcases hAval with h | h <;>
  · rw [h] at hA
    omega

/-- Main specification of `BuildFreelist`: there is a chain-node list `ns`
such that the resulting span's memory and head represent exactly that chain,
its nodes are distinct step-multiples below the index range end, the embed
count is within bounds (zero for an empty chain), the inline cache holds
`min count kCacheSize` entries, and cache plus chain contents are a
permutation of all `count` object indices. -/
theorem buildFreelist_main (s : Span) (size count : Nat)
    (hpos : 0 < size)
    (hA : idxStepOf size * alignSize size = size)
    (hE : count * idxStepOf size < kListEnd) :
    ∃ ns' : List Nat,
      ChainRep (pageStart s.first_page_) size (s.buildFreelist size count).mem
        (s.buildFreelist size count).freelist_ ns' ∧
      List.Pairwise (fun x y => y < x) ns' ∧
      (∀ n ∈ ns', idxStepOf size ∣ n ∧ n < count * idxStepOf size) ∧
      (s.buildFreelist size count).embed_count_ ≤ size / 2 - 1 ∧
      (ns' = [] → (s.buildFreelist size count).embed_count_ = 0) ∧
      ns'.length ≤ count ∧
      (s.buildFreelist size count).cache_size_ = min count kCacheSize ∧
      ((cacheList (s.buildFreelist size count) ++
          chainElems (pageStart s.first_page_) size (size / 2 - 1)
            (s.buildFreelist size count).mem
            (s.buildFreelist size count).embed_count_ ns').Perm
        ((List.range count).map (· * idxStepOf size))) := by
  obtain ⟨hstep, hme⟩ := legal_size_facts size hpos hA
  have hkl := kListEnd_lt_two_pow_16
  have hE16 : count * idxStepOf size < 2 ^ 16 := by omega
  have hmod : count * idxStepOf size % 2 ^ 16 = count * idxStepOf size :=
    Nat.mod_eq_of_lt hE16
  have hSpan : s.buildFreelist size count = { s with
      allocated_ := 0,
      freelist_ := (buildLoop (pageStart s.first_page_) size (idxStepOf size)
        (size / 2 - 1) count
        (fillCache (idxStepOf size) (count * idxStepOf size % 2 ^ 16)
          kCacheSize 0 0 s.cache_).1
        (count * idxStepOf size % 2 ^ 16)
        ⟨kListEnd, none, 0, s.mem⟩).freelist,
      cache_ := (fillCache (idxStepOf size) (count * idxStepOf size % 2 ^ 16)
        kCacheSize 0 0 s.cache_).2.2,
      cache_size_ := (fillCache (idxStepOf size)
        (count * idxStepOf size % 2 ^ 16) kCacheSize 0 0 s.cache_).2.1,
      embed_count_ := (buildLoop (pageStart s.first_page_) size (idxStepOf size)
        (size / 2 - 1) count
        (fillCache (idxStepOf size) (count * idxStepOf size % 2 ^ 16)
          kCacheSize 0 0 s.cache_).1
        (count * idxStepOf size % 2 ^ 16)
        ⟨kListEnd, none, 0, s.mem⟩).embed_count,
      mem := (buildLoop (pageStart s.first_page_) size (idxStepOf size)
        (size / 2 - 1) count
        (fillCache (idxStepOf size) (count * idxStepOf size % 2 ^ 16)
          kCacheSize 0 0 s.cache_).1
        (count * idxStepOf size % 2 ^ 16)
        ⟨kListEnd, none, 0, s.mem⟩).mem } := rfl
  rw [hmod] at hSpan
  obtain ⟨hcs, hidx1, hcache⟩ :=
    fillCache_spec (idxStepOf size) count hstep hE16 kCacheSize 0 0 s.cache_
      (by omega)
      (by intro i hi; exact absurd hi (Nat.not_lt_zero i))
      (Nat.zero_le _) (Nat.zero_le _) (by omega)
  have hF1le : (fillCache (idxStepOf size) (count * idxStepOf size)
      kCacheSize 0 0 s.cache_).1 ≤ count * idxStepOf size := by
    rw [hidx1, hcs]
    have h1 : min count kCacheSize ≤ count := Nat.min_le_left _ _
    exact Nat.mul_le_mul_right _ h1
  have hF1dvd : idxStepOf size ∣ (fillCache (idxStepOf size)
      (count * idxStepOf size) kCacheSize 0 0 s.cache_).1 := by
    rw [hidx1]
    exact Dvd.intro_left _ rfl
  obtain ⟨ns', c1, c2, c3, c4, c5, c6, c7⟩ :=
    buildLoop_spec (pageStart s.first_page_) size (idxStepOf size)
      (size / 2 - 1) (count * idxStepOf size) hA hme hE count
      (fillCache (idxStepOf size) (count * idxStepOf size)
        kCacheSize 0 0 s.cache_).1
      (count * idxStepOf size) ⟨kListEnd, none, 0, s.mem⟩ []
      hF1le le_rfl hF1dvd (Dvd.intro_left _ rfl) (by omega)
      rfl List.Pairwise.nil (fun n hn => absurd hn (List.not_mem_nil n))
      rfl (fun _ => rfl) (Nat.zero_le _)
  refine ⟨ns', ?_, c2, c3, ?_, ?_, ?_, ?_, ?_⟩
  · rw [hSpan]
    exact c1
  · rw [hSpan]
    exact c4
  · rw [hSpan]
    exact c5
  · -- length bound
    have hlen0 : ([] : List Nat).length * idxStepOf size = 0 := by simp
    have hlen1 : ns'.length * idxStepOf size ≤ count * idxStepOf size := by
      omega
    exact Nat.le_of_mul_le_mul_right hlen1 hstep
  · rw [hSpan]
    exact hcs
  · -- the permutation
    rw [hSpan]
    have hCL : cacheList { s with
        allocated_ := 0,
        freelist_ := (buildLoop (pageStart s.first_page_) size (idxStepOf size)
          (size / 2 - 1) count
          (fillCache (idxStepOf size) (count * idxStepOf size)
            kCacheSize 0 0 s.cache_).1
          (count * idxStepOf size) ⟨kListEnd, none, 0, s.mem⟩).freelist,
        cache_ := (fillCache (idxStepOf size) (count * idxStepOf size)
          kCacheSize 0 0 s.cache_).2.2,
        cache_size_ := (fillCache (idxStepOf size)
          (count * idxStepOf size) kCacheSize 0 0 s.cache_).2.1,
        embed_count_ := (buildLoop (pageStart s.first_page_) size
          (idxStepOf size) (size / 2 - 1) count
          (fillCache (idxStepOf size) (count * idxStepOf size)
            kCacheSize 0 0 s.cache_).1
          (count * idxStepOf size) ⟨kListEnd, none, 0, s.mem⟩).embed_count,
        mem := (buildLoop (pageStart s.first_page_) size (idxStepOf size)
          (size / 2 - 1) count
          (fillCache (idxStepOf size) (count * idxStepOf size)
            kCacheSize 0 0 s.cache_).1
          (count * idxStepOf size) ⟨kListEnd, none, 0, s.mem⟩).mem }
        = rangeStep 0 ((fillCache (idxStepOf size) (count * idxStepOf size)
            kCacheSize 0 0 s.cache_).2.1 * idxStepOf size) (idxStepOf size)
        := by
      unfold cacheList
      rw [rangeStep_zero _ _ hstep]
      exact List.map_congr_left (fun i hi =>
        hcache i (List.mem_range.mp hi))
    rw [hCL]
    have hCE0 : chainElems (pageStart s.first_page_) size (size / 2 - 1)
        (⟨kListEnd, none, 0, s.mem⟩ : ChainSt).mem
        (⟨kListEnd, none, 0, s.mem⟩ : ChainSt).embed_count ([] : List Nat)
        = [] := rfl
    rw [hCE0, List.nil_append] at c7
    have happ := rangeStep_append (idxStepOf size) hstep
      (fillCache (idxStepOf size) (count * idxStepOf size)
        kCacheSize 0 0 s.cache_).2.1 0 (count * idxStepOf size)
      (by
        rw [Nat.zero_add]
        rw [← hidx1]
        exact hF1le)
      (by
        rw [Nat.zero_add, ← hidx1]
        exact Nat.dvd_sub' (Dvd.intro_left _ rfl) hF1dvd)
    rw [Nat.zero_add] at happ
    have hfin : rangeStep 0 (count * idxStepOf size) (idxStepOf size)
        = (List.range count).map (· * idxStepOf size) :=
      rangeStep_zero count (idxStepOf size) hstep
    rw [← hfin, ← happ, ← hidx1]
    exact List.Perm.append_left _ c7

/-! ## C2: conservation of `BuildFreelist` -/

/-- C2: for every legal `(size, count)` input, after `BuildFreelist` the
free indices held in the inline cache plus one index per chain node plus all
embedded entries are exactly `{0, step, …, (count - 1) * step}`: the list is
a permutation of those indices, its total size is `count`, it has no
duplicate, and no element equals the sentinel `kListEnd`. -/
theorem buildFreelist_conservation (s : Span) (size count : Nat)
    (hpos : 0 < size)
    (hA : idxStepOf size * alignSize size = size)
    (hE : count * idxStepOf size < kListEnd) :
    (freeIndices (s.buildFreelist size count) size count).Perm
      ((List.range count).map (· * idxStepOf size)) ∧
    (freeIndices (s.buildFreelist size count) size count).length = count ∧
    (freeIndices (s.buildFreelist size count) size count).Nodup ∧
    kListEnd ∉ freeIndices (s.buildFreelist size count) size count := by
  obtain ⟨hstep, hme⟩ := legal_size_facts size hpos hA
  obtain ⟨ns', c1, c2, c3, c4, c5, c6, ccs, c8⟩ :=
    buildFreelist_main s size count hpos hA hE
  have hne : ∀ n ∈ ns', n ≠ kListEnd := by
    intro n hn
    have := (c3 n hn).2
    omega
  have hRead : freeIndices (s.buildFreelist size count) size count
      = cacheList (s.buildFreelist size count) ++
        chainElems (pageStart s.first_page_) size (size / 2 - 1)
          (s.buildFreelist size count).mem
          (s.buildFreelist size count).embed_count_ ns' := by
    unfold freeIndices
    rw [buildFreelist_first_page,
      chainRead_eq (pageStart s.first_page_) size (size / 2 - 1)
        (s.buildFreelist size count).mem ns' count
        (s.buildFreelist size count).freelist_
        (s.buildFreelist size count).embed_count_ c1 hne c6]
  rw [hRead]
  refine ⟨c8, ?_, ?_, ?_⟩
  · rw [c8.length_eq]
    simp
  · refine c8.symm.nodup ?_
    refine List.Nodup.map ?_ (List.nodup_range count)
    intro a b hab
    exact Nat.eq_of_mul_eq_mul_right hstep hab
  · intro hmem
    rw [c8.mem_iff] at hmem
    simp only [List.mem_map, List.mem_range] at hmem
    obtain ⟨k, hk, hkEq⟩ := hmem
    have := idx_lt_kListEnd hk hE
    omega

/-- Witness for C2: object size 16 (step 2), count 6. -/
theorem buildFreelist_conservation_witness :
    (freeIndices (testSpan.buildFreelist 16 6) 16 6).Perm
      ((List.range 6).map (· * idxStepOf 16)) ∧
    (freeIndices (testSpan.buildFreelist 16 6) 16 6).length = 6 ∧
    (freeIndices (testSpan.buildFreelist 16 6) 16 6).Nodup ∧
    kListEnd ∉ freeIndices (testSpan.buildFreelist 16 6) 16 6 :=
  buildFreelist_conservation testSpan 16 6 (by decide) (by decide) (by decide)

/-! ## C10: every chain node behind the head is full -/

/-- C10: after `BuildFreelist(size, count)`, only the head chain node may be
partially filled and `embed_count_` records exactly its number of embedded
entries; every node behind the head holds exactly `max_embed = size / 2 - 1`
embedded entries.  Expressed by counting: with `m` chain nodes (`m ≥ 1`),
`count = cache_size_ + embed_count_ + m + (m - 1) * max_embed`, so the head
accounts for `embed_count_` embedded entries and each of the other `m - 1`
nodes for exactly `max_embed`; with no chain node, `embed_count_ = 0` and the
cache holds everything. -/
theorem buildFreelist_nonhead_nodes_full (s : Span) (size count : Nat)
    (hpos : 0 < size)
    (hA : idxStepOf size * alignSize size = size)
    (hE : count * idxStepOf size < kListEnd) :
    (s.buildFreelist size count).embed_count_ ≤ size / 2 - 1 ∧
    (chainNodes (pageStart s.first_page_) size
        (s.buildFreelist size count).mem count
        (s.buildFreelist size count).freelist_ = [] →
      (s.buildFreelist size count).embed_count_ = 0 ∧
      count = (s.buildFreelist size count).cache_size_) ∧
    (∀ m : Nat,
      (chainNodes (pageStart s.first_page_) size
          (s.buildFreelist size count).mem count
          (s.buildFreelist size count).freelist_).length = m → 1 ≤ m →
      count = (s.buildFreelist size count).cache_size_
        + (s.buildFreelist size count).embed_count_ + m
        + (m - 1) * (size / 2 - 1)) := by
  obtain ⟨hstep, hme⟩ := legal_size_facts size hpos hA
  obtain ⟨ns', c1, c2, c3, c4, c5, c6, ccs, c8⟩ :=
    buildFreelist_main s size count hpos hA hE
  have hne : ∀ n ∈ ns', n ≠ kListEnd := by
    intro n hn
    have := (c3 n hn).2
    omega
  have hNodes : chainNodes (pageStart s.first_page_) size
      (s.buildFreelist size count).mem count
      (s.buildFreelist size count).freelist_ = ns' :=
    chainNodes_eq (pageStart s.first_page_) size
      (s.buildFreelist size count).mem ns' count
      (s.buildFreelist size count).freelist_ c1 hne c6
  rw [hNodes]
  have hlenEq : (cacheList (s.buildFreelist size count) ++
      chainElems (pageStart s.first_page_) size (size / 2 - 1)
        (s.buildFreelist size count).mem
        (s.buildFreelist size count).embed_count_ ns').length = count := by
    rw [c8.length_eq]
    simp
  have hCLlen : (cacheList (s.buildFreelist size count)).length
      = (s.buildFreelist size count).cache_size_ := by
    simp [cacheList]
  refine ⟨c4, ?_, ?_⟩
  · intro hnil
    subst hnil
    refine ⟨c5 rfl, ?_⟩
    have hCE : chainElems (pageStart s.first_page_) size (size / 2 - 1)
        (s.buildFreelist size count).mem
        (s.buildFreelist size count).embed_count_ ([] : List Nat) = [] := rfl
    rw [hCE, List.append_nil] at hlenEq
    omega
  · intro m hm h1m
    have hns'ne : ns' ≠ [] := by
      intro h
      subst h
      simp at hm
      omega
    have hCElen := chainElems_length (pageStart s.first_page_) size
      (size / 2 - 1) (s.buildFreelist size count).mem
      (s.buildFreelist size count).embed_count_ ns' hns'ne
    rw [List.length_append, hCLlen, hCElen, hm] at hlenEq
    omega

/-- Witness for C10: object size 16, count 6 gives one chain node and
`6 = 4 + 1 + 1 + 0`. -/
theorem buildFreelist_nonhead_nodes_full_witness :
    (testSpan.buildFreelist 16 6).embed_count_ ≤ 16 / 2 - 1 ∧
    (chainNodes (pageStart testSpan.first_page_) 16
        (testSpan.buildFreelist 16 6).mem 6
        (testSpan.buildFreelist 16 6).freelist_ = [] →
      (testSpan.buildFreelist 16 6).embed_count_ = 0 ∧
      6 = (testSpan.buildFreelist 16 6).cache_size_) ∧
    (∀ m : Nat,
      (chainNodes (pageStart testSpan.first_page_) 16
          (testSpan.buildFreelist 16 6).mem 6
          (testSpan.buildFreelist 16 6).freelist_).length = m → 1 ≤ m →
      6 = (testSpan.buildFreelist 16 6).cache_size_
        + (testSpan.buildFreelist 16 6).embed_count_ + m
        + (m - 1) * (16 / 2 - 1)) :=
  buildFreelist_nonhead_nodes_full testSpan 16 6 (by decide) (by decide)
    (by decide)

/-! ## Batched popping: composition lemmas -/

theorem FreelistPopBatch_succ (size n : Nat) (s : Span) :
    FreelistPopBatch size (n + 1) s =
      match popOne size s with
      | none => ([], s)
      | some (p, s') =>
        (p :: (FreelistPopBatch size n s').1, (FreelistPopBatch size n s').2) :=
  rfl

theorem FreelistPopBatch_le (size : Nat) :
    ∀ (fuel : Nat) (s : Span), ((FreelistPopBatch size fuel s).1).length ≤ fuel
  | 0, _ => by simp [FreelistPopBatch]
  | fuel + 1, s => by
    rw [FreelistPopBatch_succ]
    cases h : popOne size s with
    | none => simp
    | some ps =>
      obtain ⟨p, s'⟩ := ps
      dsimp only
      have := FreelistPopBatch_le size fuel s'
      simp only [List.length_cons]
      omega

theorem FreelistPopBatch_none (size : Nat) (s : Span)
    (h : popOne size s = none) :
    ∀ fuel, FreelistPopBatch size fuel s = ([], s)
  | 0 => rfl
  | fuel + 1 => by
    rw [FreelistPopBatch_succ, h]

theorem FreelistPopBatch_add (size : Nat) :
    ∀ (a b : Nat) (s : Span),
      FreelistPopBatch size (a + b) s
        = ((FreelistPopBatch size a s).1
            ++ (FreelistPopBatch size b (FreelistPopBatch size a s).2).1,
           (FreelistPopBatch size b (FreelistPopBatch size a s).2).2)
  | 0, b, s => by simp [FreelistPopBatch]
  | a + 1, b, s => by
    have hsa : a + 1 + b = (a + b) + 1 := by omega
    rw [hsa, FreelistPopBatch_succ, FreelistPopBatch_succ]
    cases h : popOne size s with
    | none =>
      dsimp only
      rw [FreelistPopBatch_none size s h b]
      simp
    | some ps =>
      obtain ⟨p, s'⟩ := ps
      dsimp only
      rw [FreelistPopBatch_add size a b s']
      simp

theorem drainFreelist_eq (size n : Nat) :
    ∀ (fuel : Nat) (s : Span),
      drainFreelist size n fuel s = FreelistPopBatch size (fuel * n) s
  | 0, s => by
    have h0 : (0 : Nat) * n = 0 := by omega
    rw [h0]
    rfl
  | fuel + 1, s => by
    have hmul : (fuel + 1) * n = n + fuel * n := by ring
    rw [hmul, FreelistPopBatch_add size n (fuel * n) s]
    show (if (FreelistPopBatch size n s).1 = [] then
        ([], (FreelistPopBatch size n s).2)
      else
        ((FreelistPopBatch size n s).1 ++
          (drainFreelist size n fuel (FreelistPopBatch size n s).2).1,
         (drainFreelist size n fuel (FreelistPopBatch size n s).2).2)) = _
    by_cases hb : (FreelistPopBatch size n s).1 = []
    · rw [if_pos hb]
      cases n with
      | zero =>
        have h0 : fuel * 0 = 0 := by omega
        rw [h0]
        rfl
      | succ m =>
        have hnone : popOne size s = none := by
          cases hp : popOne size s with
          | none => rfl
          | some ps =>
            obtain ⟨p, s'⟩ := ps
            rw [FreelistPopBatch_succ, hp] at hb
            simp at hb
        have h2 := FreelistPopBatch_none size s hnone (m + 1)
        have h3 := FreelistPopBatch_none size s hnone (fuel * (m + 1))
        rw [h2]
        dsimp only
        rw [h3]
        rfl
    · rw [if_neg hb, drainFreelist_eq size n fuel (FreelistPopBatch size n s).2]

/-- Draining a chain pops, per node, the embedded entries from the top down
and then the node itself; as a multiset this is exactly the chain's
contents. -/
theorem popOrder_perm (base size me : Nat) (mem : Nat → Nat) :
    ∀ (ns : List Nat) (e : Nat),
      (popOrder base size me mem ns e).Perm (chainElems base size me mem e ns)
  | [], _ => List.Perm.refl []
  | n :: rest, e => by
    show ((nodeEmbedded mem (IdxToPtr base n size) e).reverse
        ++ n :: popOrder base size me mem rest me).Perm
      (n :: (nodeEmbedded mem (IdxToPtr base n size) e
        ++ chainElemsFull base size me mem rest))
    have h1 := popOrder_perm base size me mem rest me
    rw [chainElems_me] at h1
    refine List.Perm.trans
      (List.Perm.append_left _ (List.Perm.cons n h1)) ?_
    refine List.Perm.trans List.perm_middle ?_
    exact List.Perm.cons n
      (List.Perm.append_right _ (List.reverse_perm _))

theorem popOrder_cons (base size me : Nat) (mem : Nat → Nat) (n : Nat)
    (rest : List Nat) (e : Nat) :
    popOrder base size me mem (n :: rest) e
      = (nodeEmbedded mem (IdxToPtr base n size) e).reverse
        ++ n :: popOrder base size me mem rest me := rfl

/-- A full-fuel batched pop produces exactly the pointers of `popSeq`: the
inline cache from the top down, then the chain, node by node. -/
theorem FreelistPopBatch_popSeq (size : Nat) :
    ∀ (fuel : Nat) (s : Span) (ns : List Nat),
      ChainRep (pageStart s.first_page_) size s.mem s.freelist_ ns →
      (∀ n ∈ ns, n ≠ kListEnd) →
      (popSeq size (size / 2 - 1) s ns).length ≤ fuel →
      (FreelistPopBatch size fuel s).1
        = (popSeq size (size / 2 - 1) s ns).map
            (fun i => IdxToPtr (pageStart s.first_page_) i size)
  | 0, s, ns, hrep, hne, hlen => by
    have h0 : popSeq size (size / 2 - 1) s ns = [] :=
      List.length_eq_zero.mp (by omega)
    rw [h0]
    rfl
  | fuel + 1, s, ns, hrep, hne, hlen => by
    by_cases hcs : 0 < s.cache_size_
    · -- pop from the inline cache
      have hpop : popOne size s
          = some (IdxToPtr (pageStart s.first_page_)
                (s.cache_ (s.cache_size_ - 1)) size,
              { s with cache_size_ := s.cache_size_ - 1,
                       allocated_ := s.allocated_ + 1 }) := by
        unfold popOne
        rw [if_pos hcs]
      rw [FreelistPopBatch_succ, hpop]
      dsimp only
      have hdecomp : popSeq size (size / 2 - 1) s ns
          = s.cache_ (s.cache_size_ - 1)
            :: popSeq size (size / 2 - 1)
                { s with cache_size_ := s.cache_size_ - 1,
                         allocated_ := s.allocated_ + 1 } ns := by
        obtain ⟨c, hc⟩ : ∃ c, s.cache_size_ = c + 1 :=
          ⟨s.cache_size_ - 1, by omega⟩
        unfold popSeq cacheList
        dsimp only
        rw [hc]
        have hcc : c + 1 - 1 = c := by omega
        rw [hcc, List.range_succ, List.map_append, List.reverse_append]
        simp
      have hlen2 := congrArg List.length hdecomp
      simp only [List.length_cons] at hlen2
      rw [hdecomp, List.map_cons]
      congr 1
      exact FreelistPopBatch_popSeq size fuel
        { s with cache_size_ := s.cache_size_ - 1,
                 allocated_ := s.allocated_ + 1 } ns hrep hne (by omega)
    · -- the cache is empty
      have hc0 : s.cache_size_ = 0 := by omega
      cases ns with
      | nil =>
        have hfl : s.freelist_ = kListEnd := hrep
        have hpop : popOne size s = none := by
          unfold popOne
          rw [if_neg hcs, if_pos hfl]
        rw [FreelistPopBatch_succ, hpop]
        have hps : popSeq size (size / 2 - 1) s [] = [] := by
          unfold popSeq cacheList popOrder
          rw [hc0]
          rfl
        rw [hps]
        rfl
      | cons n rest =>
        obtain ⟨hn, hrest⟩ := hrep
        have hflne : ¬ s.freelist_ = kListEnd := by
          rw [hn]
          exact hne n (by simp)
        by_cases he : 0 < s.embed_count_
        · -- pop an embedded entry from the head node
          have hpop : popOne size s
              = some (IdxToPtr (pageStart s.first_page_)
                    (s.mem (IdxToPtr (pageStart s.first_page_) s.freelist_
                        size + 2 * s.embed_count_)) size,
                  { s with embed_count_ := s.embed_count_ - 1,
                           allocated_ := s.allocated_ + 1 }) := by
            unfold popOne
            rw [if_neg hcs, if_neg hflne, if_pos he]
          rw [FreelistPopBatch_succ, hpop]
          dsimp only
          have hdecomp : popSeq size (size / 2 - 1) s (n :: rest)
              = s.mem (IdxToPtr (pageStart s.first_page_) n size
                  + 2 * s.embed_count_)
                :: popSeq size (size / 2 - 1)
                    { s with embed_count_ := s.embed_count_ - 1,
                             allocated_ := s.allocated_ + 1 } (n :: rest) := by
            obtain ⟨e, heq⟩ : ∃ e, s.embed_count_ = e + 1 :=
              ⟨s.embed_count_ - 1, by omega⟩
            unfold popSeq cacheList popOrder
            dsimp only
            rw [hc0, heq]
            have hee : e + 1 - 1 = e := by omega
            rw [hee]
            have hemb : nodeEmbedded s.mem
                (IdxToPtr (pageStart s.first_page_) n size) (e + 1)
                = nodeEmbedded s.mem
                    (IdxToPtr (pageStart s.first_page_) n size) e
                  ++ [s.mem (IdxToPtr (pageStart s.first_page_) n size
                      + 2 * (e + 1))] := by
              unfold nodeEmbedded
              rw [List.range_succ, List.map_append]
              rfl
            rw [hemb, List.reverse_append]
            simp
          have hlen2 := congrArg List.length hdecomp
          simp only [List.length_cons] at hlen2
          rw [hdecomp, List.map_cons]
          congr 1
          · rw [hn]
          · exact FreelistPopBatch_popSeq size fuel
              { s with embed_count_ := s.embed_count_ - 1,
                       allocated_ := s.allocated_ + 1 } (n :: rest)
              ⟨hn, hrest⟩ hne (by omega)
        · -- the head node is exhausted: pop it and advance
          have he0 : s.embed_count_ = 0 := by omega
          have hpop : popOne size s
              = some (IdxToPtr (pageStart s.first_page_) s.freelist_ size,
                  { s with
                    freelist_ := s.mem (IdxToPtr (pageStart s.first_page_)
                                   s.freelist_ size),
                    embed_count_ := size / 2 - 1,
                    allocated_ := s.allocated_ + 1 }) := by
            unfold popOne
            rw [if_neg hcs, if_neg hflne, if_neg he]
          rw [FreelistPopBatch_succ, hpop]
          dsimp only
          have hdecomp : popSeq size (size / 2 - 1) s (n :: rest)
              = n :: popSeq size (size / 2 - 1)
                  { s with
                    freelist_ := s.mem (IdxToPtr (pageStart s.first_page_)
                                   s.freelist_ size),
                    embed_count_ := size / 2 - 1,
                    allocated_ := s.allocated_ + 1 } rest := by
            unfold popSeq cacheList
            dsimp only
            rw [hc0, he0, popOrder_cons]
            simp [nodeEmbedded]
          have hlen2 := congrArg List.length hdecomp
          simp only [List.length_cons] at hlen2
          rw [hdecomp, List.map_cons]
          congr 1
          · rw [hn]
          · have hrest' : ChainRep (pageStart s.first_page_) size s.mem
                (s.mem (IdxToPtr (pageStart s.first_page_) s.freelist_ size))
                rest := by
              rw [hn]
              exact hrest
            exact FreelistPopBatch_popSeq size fuel
              { s with
                freelist_ := s.mem (IdxToPtr (pageStart s.first_page_)
                               s.freelist_ size),
                embed_count_ := size / 2 - 1,
                allocated_ := s.allocated_ + 1 } rest
              hrest' (fun m hm => hne m (by simp [hm])) (by omega)

/-! ## C4: pop exhaustion -/

/-- C4: for every span initialized by `BuildFreelist(size, count)`,
repeatedly calling `FreelistPopBatch(batch, N, size)` until it returns 0
yields exactly `count` object pointers in total, all distinct, all within
the span's used address range `[start, start + count * size)`; and each
individual call returns between 0 and `N` pointers together with the count
actually produced (the returned list's length). -/
theorem freelistPopBatch_exhaustion (s : Span) (size count n : Nat)
    (hpos : 0 < size)
    (hA : idxStepOf size * alignSize size = size)
    (hE : count * idxStepOf size < kListEnd)
    (hn : 0 < n) :
    ((drainFreelist size n (count + 1) (s.buildFreelist size count)).1).length
        = count ∧
    ((drainFreelist size n (count + 1)
        (s.buildFreelist size count)).1).Nodup ∧
    (∀ p ∈ (drainFreelist size n (count + 1) (s.buildFreelist size count)).1,
      pageStart s.first_page_ ≤ p ∧
        p < pageStart s.first_page_ + count * size) ∧
    (∀ (t : Span) (m : Nat), ((FreelistPopBatch size m t).1).length ≤ m) := by
  obtain ⟨hstep, hme⟩ := legal_size_facts size hpos hA
  obtain ⟨ns', c1, c2, c3, c4, c5, c6, ccs, c8⟩ :=
    buildFreelist_main s size count hpos hA hE
  have hne : ∀ m ∈ ns', m ≠ kListEnd := by
    intro m hm
    have := (c3 m hm).2
    omega
  have hPO := popOrder_perm (pageStart s.first_page_) size (size / 2 - 1)
    (s.buildFreelist size count).mem ns'
    (s.buildFreelist size count).embed_count_
  have hPerm1 : (popSeq size (size / 2 - 1)
      (s.buildFreelist size count) ns').Perm
      ((List.range count).map (· * idxStepOf size)) := by
    refine List.Perm.trans ?_ c8
    unfold popSeq
    rw [buildFreelist_first_page]
    exact List.Perm.append (List.reverse_perm _) hPO
  have hlenPS : (popSeq size (size / 2 - 1)
      (s.buildFreelist size count) ns').length = count := by
    rw [hPerm1.length_eq]
    simp
  have hfuel : (popSeq size (size / 2 - 1)
      (s.buildFreelist size count) ns').length ≤ (count + 1) * n := by
    rw [hlenPS]
    have h1 : 1 ≤ n := hn
    have h2 := Nat.mul_le_mul_left (count + 1) h1
    omega
  have hFPB := FreelistPopBatch_popSeq size ((count + 1) * n)
    (s.buildFreelist size count) ns' c1 hne hfuel
  rw [buildFreelist_first_page] at hFPB
  have hdrain : drainFreelist size n (count + 1) (s.buildFreelist size count)
      = FreelistPopBatch size ((count + 1) * n) (s.buildFreelist size count) :=
    drainFreelist_eq size n (count + 1) _
  have hApos : 0 < alignSize size := by
    unfold alignSize
    exact pow_pos (by norm_num) _
  refine ⟨?_, ?_, ?_, fun t m => FreelistPopBatch_le size m t⟩
  · rw [hdrain, hFPB, List.length_map, hlenPS]
  · rw [hdrain, hFPB]
    have hMapPerm := hPerm1.map
      (fun i => IdxToPtr (pageStart s.first_page_) i size)
    refine hMapPerm.symm.nodup ?_
    rw [List.map_map]
    refine List.Nodup.map ?_ (List.nodup_range count)
    intro a b hab
    simp only [Function.comp_apply] at hab
    rw [IdxToPtr_eq, IdxToPtr_eq] at hab
    have hab2 : a * idxStepOf size = b * idxStepOf size :=
      Nat.eq_of_mul_eq_mul_right hApos (by omega)
    exact Nat.eq_of_mul_eq_mul_right hstep hab2
  · rw [hdrain, hFPB]
    intro p hp
    rw [List.mem_map] at hp
    obtain ⟨i, hiMem, hip⟩ := hp
    have hi2 : i ∈ (List.range count).map (· * idxStepOf size) :=
      (hPerm1.mem_iff).mp hiMem
    simp only [List.mem_map, List.mem_range] at hi2
    obtain ⟨k, hk, hkEq⟩ := hi2
    subst hkEq
    rw [← hip, IdxToPtr_eq]
    constructor
    · exact Nat.le_add_right _ _
    · have h1 : k * idxStepOf size * alignSize size = k * size := by
        rw [Nat.mul_assoc, hA]
      have h2 : k * size < count * size := (Nat.mul_lt_mul_right hpos).mpr hk
      omega

/-- Witness for C4: object size 16, count 6, batch size 3. -/
theorem freelistPopBatch_exhaustion_witness :
    ((drainFreelist 16 3 7 (testSpan.buildFreelist 16 6)).1).length = 6 ∧
    ((drainFreelist 16 3 7 (testSpan.buildFreelist 16 6)).1).Nodup ∧
    (∀ p ∈ (drainFreelist 16 3 7 (testSpan.buildFreelist 16 6)).1,
      pageStart testSpan.first_page_ ≤ p ∧
        p < pageStart testSpan.first_page_ + 6 * 16) ∧
    (∀ (t : Span) (m : Nat), ((FreelistPopBatch 16 m t).1).length ≤ m) :=
  freelistPopBatch_exhaustion testSpan 16 6 3 (by decide) (by decide)
    (by decide) (by decide)

end Tcmalloc
